import Mathlib

/-!
Verification of the caption-extraction engine of `voice/get_context.py`.

The Python module is shallowly embedded: parsed JSON values become the
inductive type `JValue` (Python `None` and JSON `null` coincide as
`JValue.null`, numbers keep their source lexeme), Python dictionaries become
insertion-ordered association lists with unique keys, and code that can raise
(`AttributeError` on `x.get` for non-dicts, `TypeError` on iterating a
non-iterable) is embedded in `Except String`.  `json.loads` is modelled by a
fuel-based JSON parser, `json.dumps(..., ensure_ascii=False)` by `dumpsC`
(compact) and `dumpsI` (indent=2), and the regular expression
CODE_FENCE_RE together with `re.search` / `re.sub` semantics by the explicit
scanners `searchFence` and `stripFenceSub`.
-/

namespace GetContext

/-- Parsed JSON value, as produced by `json.loads`.  Numbers keep the raw
numeric lexeme; objects are insertion-ordered key/value lists with unique
keys (duplicate keys in the source text override in place, as Python dicts
do). -/
inductive JValue where
  | null
  | bool (b : Bool)
  | num (s : String)
  | str (s : String)
  | arr (xs : List JValue)
  | obj (kvs : List (String × JValue))

mutual

def beqV : JValue → JValue → Bool
  | .null, .null => true
  | .bool a, .bool b => a == b
  | .num a, .num b => a == b
  | .str a, .str b => a == b
  | .arr a, .arr b => beqL a b
  | .obj a, .obj b => beqKV a b
  | _, _ => false

def beqL : List JValue → List JValue → Bool
  | [], [] => true
  | a :: as, b :: bs => beqV a b && beqL as bs
  | _, _ => false

def beqKV : List (String × JValue) → List (String × JValue) → Bool
  | [], [] => true
  | (k, a) :: as, (l, b) :: bs => k == l && beqV a b && beqKV as bs
  | _, _ => false

end

mutual

theorem beqV_iff : ∀ a b : JValue, beqV a b = true ↔ a = b
  | .null, .null => by simp [beqV]
  | .bool _, .bool _ => by simp [beqV]
  | .num _, .num _ => by simp [beqV]
  | .str _, .str _ => by simp [beqV]
  | .arr a, .arr b => by simp [beqV, beqL_iff a b]
  | .obj a, .obj b => by simp [beqV, beqKV_iff a b]
  | .null, .bool _ | .null, .num _ | .null, .str _ | .null, .arr _ | .null, .obj _
  | .bool _, .null | .bool _, .num _ | .bool _, .str _ | .bool _, .arr _ | .bool _, .obj _
  | .num _, .null | .num _, .bool _ | .num _, .str _ | .num _, .arr _ | .num _, .obj _
  | .str _, .null | .str _, .bool _ | .str _, .num _ | .str _, .arr _ | .str _, .obj _
  | .arr _, .null | .arr _, .bool _ | .arr _, .num _ | .arr _, .str _ | .arr _, .obj _
  | .obj _, .null | .obj _, .bool _ | .obj _, .num _ | .obj _, .str _ | .obj _, .arr _ => by
      simp [beqV]

theorem beqL_iff : ∀ a b : List JValue, beqL a b = true ↔ a = b
  | [], [] => by simp [beqL]
  | a :: as, b :: bs => by
      simp [beqL, beqV_iff a b, beqL_iff as bs, Bool.and_eq_true]
  | [], _ :: _ => by simp [beqL]
  | _ :: _, [] => by simp [beqL]

theorem beqKV_iff : ∀ a b : List (String × JValue), beqKV a b = true ↔ a = b
  | [], [] => by simp [beqKV]
  | (k, a) :: as, (l, b) :: bs => by
      simp [beqKV, beqV_iff a b, beqKV_iff as bs, Bool.and_eq_true, and_assoc,
        Prod.ext_iff]
  | [], _ :: _ => by simp [beqKV]
  | _ :: _, [] => by simp [beqKV]

end

instance : DecidableEq JValue := fun a b =>
  decidable_of_iff (beqV a b = true) (beqV_iff a b)

/-- The characters matched by the regex class `\s` (and stripped by Python's
`str.strip()` for ASCII input). -/
def isPySpace (c : Char) : Bool :=
  c == ' ' || c == '\t' || c == '\n' || c == '\r' || c == '\x0b' || c == '\x0c'

/-- The whitespace characters skipped by `json.loads`. -/
def isJsonWs (c : Char) : Bool :=
  c == ' ' || c == '\t' || c == '\n' || c == '\r'

def lbraceC : Char := Char.ofNat 123

def rbraceC : Char := Char.ofNat 125

def btickC : Char := Char.ofNat 96

def squoteC : Char := Char.ofNat 39

/-- Python `str.strip()` on a character list. -/
def pyStripL (cs : List Char) : List Char :=
  ((cs.dropWhile isPySpace).reverse.dropWhile isPySpace).reverse

/-- Python `str.strip()`. -/
def pyStripS (s : String) : String := String.mk (pyStripL s.data)

/-- Python truthiness of a number given its lexeme: zero iff every digit of
the mantissa (the part before any exponent marker) is `0`. -/
def mantissaTruthy (s : String) : Bool :=
  (s.data.takeWhile (fun c => !(c == 'e' || c == 'E'))).any
    (fun c => c.isDigit && !(c == '0'))

/-- Python truthiness of a parsed JSON value. -/
def JValue.truthy : JValue → Bool
  | .null => false
  | .bool b => b
  | .num s => mantissaTruthy s
  | .str s => !s.isEmpty
  | .arr xs => !xs.isEmpty
  | .obj kvs => !kvs.isEmpty

def JValue.isObj : JValue → Bool
  | .obj _ => true
  | _ => false

def JValue.isArr : JValue → Bool
  | .arr _ => true
  | _ => false

def JValue.isStr : JValue → Bool
  | .str _ => true
  | _ => false

/-- Python `d.get(k)` on a dict represented as an association list: the value
of the first binding of `k`, or `None` when the key is absent. -/
def dGet (kvs : List (String × JValue)) (k : String) : JValue :=
  match kvs.lookup k with
  | some v => v
  | none => .null

/-- Python `d.get(k, dflt)`. -/
def dGetD (kvs : List (String × JValue)) (k : String) (dflt : JValue) : JValue :=
  match kvs.lookup k with
  | some v => v
  | none => dflt

/-- Python `k in d`. -/
def hasKeyKV (kvs : List (String × JValue)) (k : String) : Bool :=
  (kvs.lookup k).isSome

/-- Python `x.get(...)` requires `x` to be a dict; on anything else the
attribute access raises. -/
def getObj : JValue → Except String (List (String × JValue))
  | .obj kvs => .ok kvs
  | _ => .error "AttributeError"

/-- Python `a or b` on JSON values. -/
def pyOr (a b : JValue) : JValue := if a.truthy then a else b

/-- Python `for x in v`: lists iterate their elements, strings their
one-character substrings, dicts their keys; anything else raises. -/
def pyIter : JValue → Except String (List JValue)
  | .arr xs => .ok xs
  | .str s => .ok (s.data.map (fun ch => JValue.str (String.mk [ch])))
  | .obj kvs => .ok (kvs.map (fun kv => JValue.str kv.1))
  | _ => .error "TypeError"

/-- Insertion into a Python dict: a duplicate key overrides the value in
place, a fresh key is appended. -/
def insertKV : List (String × JValue) → String → JValue → List (String × JValue)
  | [], k, v => [(k, v)]
  | (k1, v1) :: rest, k, v =>
    if k1 = k then (k1, v) :: rest else (k1, v1) :: insertKV rest k v

def hexVal (c : Char) : Option Nat :=
  if c.isDigit then some (c.toNat - 48)
  else if 'a' ≤ c ∧ c ≤ 'f' then some (c.toNat - 87)
  else if 'A' ≤ c ∧ c ≤ 'F' then some (c.toNat - 55)
  else none

/-- Body of a JSON string literal (the opening quote already consumed):
returns the decoded characters and the input after the closing quote.
Mirrors `json.loads` string handling: the escapes `\" \\ \/ \b \f \n \r \t`
and `\uXXXX`; raw control characters are rejected. -/
def parseStrBody : List Char → Option (List Char × List Char)
  | [] => none
  | c :: rest =>
    if c = '"' then some ([], rest)
    else if c = '\\' then
      match rest with
      | [] => none
      | e :: rest2 =>
        if e = '"' ∨ e = '\\' ∨ e = '/' then
          (parseStrBody rest2).map (fun p => (e :: p.1, p.2))
        else if e = 'b' then (parseStrBody rest2).map (fun p => ('\x08' :: p.1, p.2))
        else if e = 'f' then (parseStrBody rest2).map (fun p => ('\x0c' :: p.1, p.2))
        else if e = 'n' then (parseStrBody rest2).map (fun p => ('\n' :: p.1, p.2))
        else if e = 'r' then (parseStrBody rest2).map (fun p => ('\r' :: p.1, p.2))
        else if e = 't' then (parseStrBody rest2).map (fun p => ('\t' :: p.1, p.2))
        else if e = 'u' then
          match rest2 with
          | h1 :: h2 :: h3 :: h4 :: rest3 =>
            match hexVal h1, hexVal h2, hexVal h3, hexVal h4 with
            | some a, some b, some c3, some d =>
              (parseStrBody rest3).map
                (fun p => (Char.ofNat (4096 * a + 256 * b + 16 * c3 + d) :: p.1, p.2))
            | _, _, _, _ => none
          | _ => none
        else none
    else if c.toNat < 32 then none
    else (parseStrBody rest).map (fun p => (c :: p.1, p.2))

/-- Numeric literal of the JSON grammar: `-?(0|[1-9][0-9]*)(\.[0-9]+)?([eE][+-]?[0-9]+)?`,
kept as its lexeme. -/
def parseNum (cs : List Char) : Option (JValue × List Char) :=
  let signed := match cs with
    | '-' :: t => (['-'], t)
    | _ => (([] : List Char), cs)
  match signed.2 with
  | [] => none
  | d :: _ =>
    if d.isDigit then
      let intPart := signed.2.takeWhile Char.isDigit
      let r1 := signed.2.dropWhile Char.isDigit
      if d = '0' ∧ intPart.length ≠ 1 then none
      else
        let fr := match r1 with
          | '.' :: t =>
            let ds := t.takeWhile Char.isDigit
            if ds.isEmpty then none else some ('.' :: ds, t.dropWhile Char.isDigit)
          | _ => some (([] : List Char), r1)
        match fr with
        | none => none
        | some (fracCs, r2) =>
          let ex := match r2 with
            | e :: t =>
              if e = 'e' ∨ e = 'E' then
                let sgT := match t with
                  | '+' :: u => (['+'], u)
                  | '-' :: u => (['-'], u)
                  | _ => (([] : List Char), t)
                let ds := sgT.2.takeWhile Char.isDigit
                if ds.isEmpty then none
                else some (e :: sgT.1 ++ ds, sgT.2.dropWhile Char.isDigit)
              else some (([] : List Char), e :: t)
            | [] => some (([] : List Char), ([] : List Char))
          match ex with
          | none => none
          | some (expCs, r3) =>
            some (.num (String.mk (signed.1 ++ intPart ++ fracCs ++ expCs)), r3)
    else none

mutual

/-- Fuel-based JSON value parser modelling `json.loads` (the fuel only bounds
recursion depth across nested values; `json_loads` supplies enough for any
input it is given). -/
def parseVal : Nat → List Char → Option (JValue × List Char)
  | 0, _ => none
  | Nat.succ f, cs0 =>
    let cs := cs0.dropWhile isJsonWs
    match cs with
    | [] => none
    | c :: rest =>
      if c = '"' then (parseStrBody rest).map (fun p => (.str (String.mk p.1), p.2))
      else if c = lbraceC then
        match rest.dropWhile isJsonWs with
        | d :: r2 => if d = rbraceC then some (.obj [], r2) else parseItems f (d :: r2) []
        | [] => none
      else if c = '[' then
        match rest.dropWhile isJsonWs with
        | d :: r2 => if d = ']' then some (.arr [], r2) else parseElems f (d :: r2) []
        | [] => none
      else
        match cs with
        | 'n' :: 'u' :: 'l' :: 'l' :: r => some (.null, r)
        | 't' :: 'r' :: 'u' :: 'e' :: r => some (.bool true, r)
        | 'f' :: 'a' :: 'l' :: 's' :: 'e' :: r => some (.bool false, r)
        | _ => parseNum cs

def parseElems : Nat → List Char → List JValue → Option (JValue × List Char)
  | 0, _, _ => none
  | Nat.succ f, cs, acc =>
    match parseVal f cs with
    | none => none
    | some (v, rest) =>
      match rest.dropWhile isJsonWs with
      | ',' :: r2 => parseElems f r2 (acc ++ [v])
      | d :: r2 => if d = ']' then some (.arr (acc ++ [v]), r2) else none
      | [] => none

def parseItems : Nat → List Char → List (String × JValue) → Option (JValue × List Char)
  | 0, _, _ => none
  | Nat.succ f, cs, acc =>
    match cs.dropWhile isJsonWs with
    | c :: rest =>
      if c = '"' then
        match parseStrBody rest with
        | some (kcs, r1) =>
          match r1.dropWhile isJsonWs with
          | d :: r3 =>
            if d = ':' then
              match parseVal f r3 with
              | some (v, r4) =>
                match r4.dropWhile isJsonWs with
                | e :: r6 =>
                  if e = ',' then parseItems f r6 (insertKV acc (String.mk kcs) v)
                  else if e = rbraceC then some (.obj (insertKV acc (String.mk kcs) v), r6)
                  else none
                | [] => none
              | none => none
            else none
          | [] => none
        | none => none
      else none
    | [] => none

end

/-- Model of `json.loads`: parse one value, allow only trailing whitespace. -/
def json_loads (s : String) : Option JValue :=
  match parseVal (2 * s.length + 2) s.data with
  | some (v, rest) => if rest.dropWhile isJsonWs = [] then some v else none
  | none => none

def hexDigitChar (n : Nat) : Char :=
  if n < 10 then Char.ofNat (48 + n) else Char.ofNat (87 + n)

/-- Escaping of one character by `json.dumps(..., ensure_ascii=False)`:
quote, backslash and the short control escapes, `\u00XX` for the remaining
control characters, everything else literal. -/
def escapeChar (c : Char) : List Char :=
  if c = '"' then ['\\', '"']
  else if c = '\\' then ['\\', '\\']
  else if c = '\n' then ['\\', 'n']
  else if c = '\t' then ['\\', 't']
  else if c = '\r' then ['\\', 'r']
  else if c = '\x08' then ['\\', 'b']
  else if c = '\x0c' then ['\\', 'f']
  else if c.toNat < 32 then
    ['\\', 'u', '0', '0', hexDigitChar (c.toNat / 16), hexDigitChar (c.toNat % 16)]
  else [c]

/-- A JSON string literal as rendered by `json.dumps(..., ensure_ascii=False)`. -/
def renderStr (s : String) : List Char :=
  '"' :: (s.data.map escapeChar).flatten ++ ['"']

mutual

/-- `json.dumps(v, ensure_ascii=False)` with the default separators
`", "` and `": "`. -/
def dumpsC : JValue → List Char
  | .null => "null".data
  | .bool true => "true".data
  | .bool false => "false".data
  | .num s => s.data
  | .str s => renderStr s
  | .arr xs => '[' :: dumpsCElems xs ++ [']']
  | .obj kvs => lbraceC :: dumpsCItems kvs ++ [rbraceC]

def dumpsCElems : List JValue → List Char
  | [] => []
  | [x] => dumpsC x
  | x :: y :: t => dumpsC x ++ [',', ' '] ++ dumpsCElems (y :: t)

def dumpsCItems : List (String × JValue) → List Char
  | [] => []
  | [(k, v)] => renderStr k ++ [':', ' '] ++ dumpsC v
  | (k, v) :: p :: t => renderStr k ++ [':', ' '] ++ dumpsC v ++ [',', ' '] ++ dumpsCItems (p :: t)

end

def indentN (lvl : Nat) : List Char := List.replicate (2 * lvl) ' '

mutual

/-- `json.dumps(v, ensure_ascii=False, indent=2)` at nesting level `lvl`. -/
def dumpsI : Nat → JValue → List Char
  | _, .null => "null".data
  | _, .bool true => "true".data
  | _, .bool false => "false".data
  | _, .num s => s.data
  | _, .str s => renderStr s
  | _, .arr [] => ['[', ']']
  | lvl, .arr (x :: t) =>
    '[' :: '\n' :: dumpsIElems (lvl + 1) (x :: t) ++ '\n' :: indentN lvl ++ [']']
  | _, .obj [] => [lbraceC, rbraceC]
  | lvl, .obj (p :: t) =>
    lbraceC :: '\n' :: dumpsIItems (lvl + 1) (p :: t) ++ '\n' :: indentN lvl ++ [rbraceC]

def dumpsIElems : Nat → List JValue → List Char
  | _, [] => []
  | lvl, [x] => indentN lvl ++ dumpsI lvl x
  | lvl, x :: y :: t => indentN lvl ++ dumpsI lvl x ++ [',', '\n'] ++ dumpsIElems lvl (y :: t)

def dumpsIItems : Nat → List (String × JValue) → List Char
  | _, [] => []
  | lvl, [(k, v)] => indentN lvl ++ renderStr k ++ [':', ' '] ++ dumpsI lvl v
  | lvl, (k, v) :: p :: t =>
    indentN lvl ++ renderStr k ++ [':', ' '] ++ dumpsI lvl v ++ [',', '\n'] ++
      dumpsIItems lvl (p :: t)

end

def pyReprStrEsc (c : Char) : List Char :=
  if c = '\\' then ['\\', '\\']
  else if c = squoteC then ['\\', squoteC]
  else if c = '\n' then ['\\', 'n']
  else if c = '\r' then ['\\', 'r']
  else if c = '\t' then ['\\', 't']
  else [c]

/-- Python `repr` of a string: single-quoted with basic escapes. -/
def pyReprStr (s : String) : List Char :=
  squoteC :: (s.data.map pyReprStrEsc).flatten ++ [squoteC]

mutual

/-- Python `repr` of a JSON-shaped value (single-quoted strings; used by
`str()` on containers). -/
def pyRepr : JValue → List Char
  | .null => ['N', 'o', 'n', 'e']
  | .bool true => ['T', 'r', 'u', 'e']
  | .bool false => ['F', 'a', 'l', 's', 'e']
  | .num s => s.data
  | .str s => pyReprStr s
  | .arr xs => '[' :: pyReprElems xs ++ [']']
  | .obj kvs => lbraceC :: pyReprItems kvs ++ [rbraceC]

def pyReprElems : List JValue → List Char
  | [] => []
  | [x] => pyRepr x
  | x :: y :: t => pyRepr x ++ [',', ' '] ++ pyReprElems (y :: t)

def pyReprItems : List (String × JValue) → List Char
  | [] => []
  | [(k, v)] => pyReprStr k ++ [':', ' '] ++ pyRepr v
  | (k, v) :: p :: t => pyReprStr k ++ [':', ' '] ++ pyRepr v ++ [',', ' '] ++ pyReprItems (p :: t)

end

/-- Python `str()` of a JSON-shaped value: identity on strings, `repr`
otherwise. -/
def pyStr : JValue → String
  | .str s => s
  | v => String.mk (pyRepr v)

def ticks3 : List Char := [btickC, btickC, btickC]

def jsonTag : List Char := ['j', 's', 'o', 'n']

/-- After the closing brace of a candidate group, the regex requires
optional whitespace followed by a closing fence. -/
def fenceFollows (cs : List Char) : Bool :=
  ticks3.isPrefixOf (cs.dropWhile isPySpace)

/-- Non-greedy search for the closing `}` of the capture group
`(\{.*?\})\s*` followed by three backticks: the first `}` whose tail
satisfies `fenceFollows` wins. -/
def findClose (acc : List Char) : List Char → Option (List Char)
  | [] => none
  | c :: rest =>
    if c = rbraceC ∧ fenceFollows rest then some (acc ++ [rbraceC])
    else findClose (acc ++ [c]) rest

/-- Attempt to match CODE_FENCE_RE at the current position: an opening
fence, an optional literal `json` tag, optional whitespace, then the
non-greedy brace group. -/
def tryFenceAt (cs : List Char) : Option (List Char) :=
  if ticks3.isPrefixOf cs then
    let r := cs.drop 3
    let r2 := if jsonTag.isPrefixOf r then r.drop 4 else r
    match r2.dropWhile isPySpace with
    | c :: rest => if c = lbraceC then findClose [lbraceC] rest else none
    | [] => none
  else none

/-- `CODE_FENCE_RE.search`: leftmost position at which the pattern matches;
returns the captured group `"{...}"`. -/
def searchFence : List Char → Option (List Char)
  | [] => none
  | c :: rest =>
    match tryFenceAt (c :: rest) with
    | some g => some g
    | none => searchFence rest

/-- `extract_fenced_json` from the source: `None` on empty text, otherwise
search for a fenced group and parse it; a group that fails to parse is
treated as absent.  The regex group always starts with a brace, so a
successful parse is always a JSON object; the result is its field list. -/
def extract_fenced_json (text : String) : Option (List (String × JValue)) :=
  if text.isEmpty then none
  else
    match searchFence text.data with
    | none => none
    | some g =>
      match json_loads (String.mk g) with
      | some (.obj kvs) => some kvs
      | _ => none

theorem length_dropWhile_le {α : Type} (p : α → Bool) :
    ∀ l : List α, (l.dropWhile p).length ≤ l.length
  | [] => Nat.le_refl _
  | a :: l => by
    rw [List.dropWhile_cons]
    split
    · exact Nat.le_trans (length_dropWhile_le p l) (Nat.le_succ _)
    · exact Nat.le_refl _

theorem dropWhile_drop_len_lt {α : Type} (p : α → Bool) (n : Nat) (c : α) (rest : List α)
    (hn : 0 < n) : (((c :: rest).drop n).dropWhile p).length < (c :: rest).length := by
  have h1 := length_dropWhile_le p ((c :: rest).drop n)
  simp only [List.length_drop, List.length_cons] at h1 ⊢
  omega

theorem drop_dropWhile_len_lt {α : Type} (p : α → Bool) (n : Nat) (c : α) (rest : List α)
    (hn : 0 < n) : (((c :: rest).dropWhile p).drop n).length < (c :: rest).length := by
  have h1 := length_dropWhile_le p (c :: rest)
  simp only [List.length_drop, List.length_cons] at h1 ⊢
  omega

/-- One pass of `re.sub(r"```(?:json)?\s*|\s*```", "", text)`: scanning left
to right, an opening fence (with optional tag) swallows trailing whitespace,
otherwise a whitespace run directly followed by a fence is swallowed with it,
otherwise the character is kept.  Structural recursion on a fuel that every
step strictly outpaces (each recursive call drops at least one character),
so `stripFenceSub` below always supplies enough. -/
def stripFenceSubF : Nat → List Char → List Char
  | 0, cs => cs
  | Nat.succ fuel, cs =>
    match cs with
    | [] => []
    | c :: rest =>
      if ticks3.isPrefixOf (c :: rest) then
        if jsonTag.isPrefixOf ((c :: rest).drop 3) then
          stripFenceSubF fuel (((c :: rest).drop 7).dropWhile isPySpace)
        else
          stripFenceSubF fuel (((c :: rest).drop 3).dropWhile isPySpace)
      else if isPySpace c ∧ ticks3.isPrefixOf ((c :: rest).dropWhile isPySpace) then
        stripFenceSubF fuel (((c :: rest).dropWhile isPySpace).drop 3)
      else c :: stripFenceSubF fuel rest

def stripFenceSub (cs : List Char) : List Char := stripFenceSubF cs.length cs

/-- `strip_code_fence` from the source: the substitution pass followed by
`str.strip()`. -/
def strip_code_fence (s : String) : String :=
  String.mk (pyStripL (stripFenceSub s.data))

/-- The three-field dict built per block by
`extract_blocks_from_script_caption`. -/
structure BRec where
  time : JValue
  content : JValue
  title : JValue
  deriving DecidableEq

/-- The four-field record dict appended to `found` by `extract_from_entry`
(insertion order `timestamp, time, content, title`). -/
structure Rec where
  timestamp : JValue
  time : JValue
  content : JValue
  title : JValue
  deriving DecidableEq

instance {ε α : Type} [DecidableEq ε] [DecidableEq α] : DecidableEq (Except ε α) := fun x y =>
  match x, y with
  | .ok a, .ok b =>
    if h : a = b then isTrue (by rw [h]) else isFalse (fun hc => h (Except.ok.inj hc))
  | .error a, .error b =>
    if h : a = b then isTrue (by rw [h]) else isFalse (fun hc => h (Except.error.inj hc))
  | .ok _, .error _ => isFalse (fun hc => Except.noConfusion hc)
  | .error _, .ok _ => isFalse (fun hc => Except.noConfusion hc)

/-- Sequential effectful map: the Python loop that appends per-element
results and aborts the whole call on the first raise. -/
def mapExc {A B : Type} (f : A -> Except String B) : List A -> Except String (List B)
  | [] => .ok []
  | x :: xs =>
    match f x with
    | .error e => .error e
    | .ok y =>
      match mapExc f xs with
      | .error e => .error e
      | .ok ys => .ok (y :: ys)

/-- One item of an embedded `captions` array, unpacked with
`c.get(key, default)` semantics (the default applies only when the key is
absent). -/
def innerRecOf (c : JValue) : Except String BRec := do
  let ckvs ← getObj c
  pure ⟨dGetD ckvs "time" (JValue.str ""),
        dGetD ckvs "content" (dGetD ckvs "caption" (JValue.str "")),
        dGetD ckvs "title" (JValue.str "")⟩

/-- `extract_blocks_from_script_caption` from the source. -/
def extract_blocks_from_script_caption (block : JValue) : Except String (List BRec) :=
  match getObj block with
  | .error e => .error e
  | .ok kvs =>
    let time := pyOr (dGet kvs "time") (pyOr (dGet kvs "time_range") (JValue.str ""))
    let title := pyOr (dGet kvs "title") (JValue.str "")
    match kvs.lookup "caption" with
    | some (JValue.str s) =>
      let caption := pyStripS s
      match extract_fenced_json caption with
      | some ikvs =>
        if (!ikvs.isEmpty) && hasKeyKV ikvs "captions" then
          match pyIter (dGet ikvs "captions") with
          | .error e => .error e
          | .ok items => mapExc innerRecOf items
        else .ok [⟨time, JValue.str (strip_code_fence caption), title⟩]
      | none => .ok [⟨time, JValue.str (strip_code_fence caption), title⟩]
    | _ =>
      match kvs.lookup "content" with
      | some (JValue.str s2) => .ok [⟨time, JValue.str (strip_code_fence s2), title⟩]
      | _ => .ok [⟨time, JValue.str (strip_code_fence (String.mk (dumpsC block))), title⟩]

/-- Strategy B treatment of one element of `results`: non-strings are
skipped; a string with a truthy fenced object holding a `script/caption` or
`captions` list unpacks its dict items; otherwise the whole string is one
fence-stripped record. -/
def perResult (ts : JValue) (r : JValue) : List Rec :=
  match r with
  | JValue.str s =>
    let plain : List Rec := [⟨ts, JValue.str "", JValue.str (strip_code_fence s), JValue.str ""⟩]
    (match extract_fenced_json s with
     | some ikvs =>
       if !ikvs.isEmpty then
         match pyOr (dGet ikvs "script/caption") (dGet ikvs "captions") with
         | JValue.arr items =>
           items.filterMap (fun item =>
             match item with
             | JValue.obj ckvs =>
               some ⟨ts, pyOr (dGet ckvs "time") (JValue.str ""),
                     JValue.str (strip_code_fence (pyStr (pyOr (dGet ckvs "caption")
                       (pyOr (dGet ckvs "content") (JValue.str ""))))),
                     pyOr (dGet ckvs "title") (JValue.str "")⟩
             | _ => none)
         | _ => plain
       else plain
     | none => plain)
  | _ => []

/-- Strategy C treatment of one field of the raw entry: scan string values
for a truthy fenced object holding a `script/caption` or `captions` list;
its items are unpacked without an `isinstance` guard, so a non-dict item
raises. -/
def perField (ts : JValue) (kv : String × JValue) : Except String (List Rec) :=
  match kv.2 with
  | JValue.str s =>
    (match extract_fenced_json s with
     | some ikvs =>
       if !ikvs.isEmpty then
         match pyOr (dGet ikvs "script/caption") (dGet ikvs "captions") with
         | JValue.arr items =>
           mapExc (fun item =>
             match item with
             | JValue.obj ckvs =>
               Except.ok (Rec.mk ts (pyOr (dGet ckvs "time") (JValue.str ""))
                 (JValue.str (strip_code_fence (pyStr (pyOr (dGet ckvs "caption")
                   (pyOr (dGet ckvs "content") (JValue.str ""))))))
                 (pyOr (dGet ckvs "title") (JValue.str "")))
             | _ => Except.error "AttributeError") items
         | _ => .ok []
       else .ok []
     | none => .ok [])
  | _ => .ok []

/-- `extract_from_entry` from the source: Strategy A when `data` is a truthy
dict whose `script/caption` is a list, otherwise Strategy B when `results`
is a list, otherwise the Strategy C scan over all fields. -/
def extract_from_entry (entry : JValue) : Except String (List Rec) :=
  match getObj entry with
  | .error e => .error e
  | .ok ekvs =>
    let ts := dGet ekvs "timestamp"
    let stageBC : Except String (List Rec) :=
      match dGet ekvs "results" with
      | JValue.arr rs => .ok ((rs.map (perResult ts)).flatten)
      | _ => (mapExc (perField ts) ekvs).map List.flatten
    match dGet ekvs "data" with
    | JValue.obj dkvs =>
      if !dkvs.isEmpty then
        match dGet dkvs "script/caption" with
        | JValue.arr blocks =>
          (mapExc (fun block =>
             (extract_blocks_from_script_caption block).map
               (fun bs => bs.map (fun b => Rec.mk ts b.time b.content b.title))) blocks).map
            List.flatten
        | _ => stageBC
      else stageBC
    | _ => stageBC

/-- Deduplication identity of a record: the tuple
`(it.get("timestamp"), it.get("time"), it.get("content"))`. -/
def rkey (r : Rec) : JValue × JValue × JValue := (r.timestamp, r.time, r.content)

/-- Python hashability of one JSON value: lists and dicts are unhashable, so
a key tuple holding one raises `TypeError` when `key in seen` hashes it. -/
def hashableV : JValue → Bool
  | JValue.arr _ => false
  | JValue.obj _ => false
  | _ => true

def rkeyHashable (r : Rec) : Bool :=
  hashableV r.timestamp && hashableV r.time && hashableV r.content

/-- Consume leading decimal digits: their value, how many, and the rest. -/
def readDigitsQ : List Char → Nat → Nat → Nat × Nat × List Char
  | [], acc, n => (acc, n, [])
  | c :: cs, acc, n =>
    if c.isDigit then readDigitsQ cs (acc * 10 + (c.toNat - 48)) (n + 1)
    else (acc, n, c :: cs)

def numExpDigitsME (m : Int) (e : Int) (sgn : Int) (cs : List Char) : Option (Int × Int) :=
  match readDigitsQ cs 0 0 with
  | (ev, Nat.succ _, []) => some (m, e + sgn * (ev : Int))
  | _ => none

def numExpME (m : Int) (e : Int) : List Char → Option (Int × Int)
  | [] => some (m, e)
  | c :: cs =>
    if c = 'e' ∨ c = 'E' then
      match cs with
      | '+' :: r => numExpDigitsME m e 1 r
      | '-' :: r => numExpDigitsME m e (-1) r
      | r => numExpDigitsME m e 1 r
    else none

/-- Exact decimal value of a JSON number lexeme as mantissa and power-of-ten
exponent (value = m * 10 ^ e). Modelling convention: the int and float
values `json.loads` builds from these lexemes compare by exact decimal
value; IEEE rounding of float literals is not modeled. -/
def numValME (s : String) : Option (Int × Int) :=
  let p : Int × List Char :=
    match s.data with
    | '-' :: r => (-1, r)
    | r => (1, r)
  match readDigitsQ p.2 0 0 with
  | (ip, Nat.succ _, cs1) =>
    match cs1 with
    | '.' :: r =>
      match readDigitsQ r 0 0 with
      | (fv, Nat.succ fn, cs2) =>
        numExpME (p.1 * ((ip : Int) * (10 : Int) ^ (fn + 1) + (fv : Int)))
          (-(fn + 1 : Int)) cs2
      | _ => none
    | _ => numExpME (p.1 * (ip : Int)) 0 cs1
  | _ => none

/-- m1 * 10 ^ e1 = m2 * 10 ^ e2, by scaling to the smaller exponent. -/
def numEqME (a b : Int × Int) : Bool :=
  if a.2 ≤ b.2 then decide (a.1 = b.1 * (10 : Int) ^ (b.2 - a.2).toNat)
  else decide (a.1 * (10 : Int) ^ (a.2 - b.2).toNat = b.1)

/-- The numeric value Python `==` compares for `bool`/`int`/`float` operands
(`True == 1 == 1.0`); `None` and `str` are non-numeric. -/
def pyNumME : JValue → Option (Int × Int)
  | JValue.bool b => some (if b then 1 else 0, 0)
  | JValue.num s => numValME s
  | _ => none

/-- Python `==` on hashable values: two numeric operands compare by value,
everything else structurally. -/
def pyKeyEq (a b : JValue) : Bool :=
  match pyNumME a, pyNumME b with
  | some x, some y => numEqME x y
  | _, _ => beqV a b

/-- Tuple equality of two dedup keys under Python `==`. -/
def keyEq (a b : JValue × JValue × JValue) : Bool :=
  pyKeyEq a.1 b.1 && pyKeyEq a.2.1 b.2.1 && pyKeyEq a.2.2 b.2.2

/-- The loop of `dedupe_and_flatten`: `key in seen` first hashes the key,
raising `TypeError` when a component is a list or dict, then tests set
membership by `==`; an unseen key is added and its record kept. -/
def dedupeGo : List (JValue × JValue × JValue) → List Rec → Except String (List Rec)
  | _, [] => Except.ok []
  | seen, r :: rest =>
    if rkeyHashable r then
      if seen.any (keyEq (rkey r)) then dedupeGo seen rest
      else
        match dedupeGo (rkey r :: seen) rest with
        | Except.ok out => Except.ok (r :: out)
        | Except.error e => Except.error e
    else Except.error "TypeError"

/-- `dedupe_and_flatten` from the source: keep the first record of each
`(timestamp, time, content)` key, preserving order; a record whose key holds
an unhashable component raises `TypeError`. -/
def dedupe_and_flatten (items : List Rec) : Except String (List Rec) :=
  dedupeGo [] items

/-- One line of `load_log_lines`: strip, skip blanks, try `json.loads`, then
try to salvage a fenced document. -/
def salvageLine (ls : String) : Option JValue :=
  match searchFence ls.data with
  | some g => json_loads (String.mk g)
  | none => none

/-- `load_log_lines` from the source, over the already-split lines of the
file, returning the parsed entries in order together with the 1-based line
numbers of the emitted warnings. -/
def load_log_lines (lines : List String) (i : Nat) : List JValue × List Nat :=
  match lines with
  | [] => ([], [])
  | l :: rest =>
    let rec0 := load_log_lines rest (i + 1)
    let ls := pyStripS l
    if ls.isEmpty then rec0
    else
      match json_loads ls with
      | some v => (v :: rec0.1, rec0.2)
      | none =>
        match salvageLine ls with
        | some v => (v :: rec0.1, rec0.2)
        | none => (rec0.1, i :: rec0.2)

/-- The JSON object serialized for one record by `write_json`. -/
def recJ (r : Rec) : JValue :=
  JValue.obj [("timestamp", r.timestamp), ("time", r.time),
              ("content", r.content), ("title", r.title)]

/-- The text produced by `write_json`:
`json.dumps(items, ensure_ascii=False, indent=2)`. -/
def write_json_text (items : List Rec) : String :=
  String.mk (dumpsI 0 (JValue.arr (items.map recJ)))

/-- CaptionRecord as the spec's data model types it: an optional timestamp
string and three strings. -/
structure CaptionRecord where
  timestamp : Option String
  time : String
  title : String
  content : String
  deriving DecidableEq

def CaptionRecord.toRec (cr : CaptionRecord) : Rec :=
  ⟨(match cr.timestamp with
    | some s => JValue.str s
    | none => JValue.null),
   JValue.str cr.time, JValue.str cr.content, JValue.str cr.title⟩

/-- Reading one serialized record object back as a CaptionRecord. -/
def crOfJ : JValue → Option CaptionRecord
  | JValue.obj [("timestamp", ts), ("time", JValue.str t),
                ("content", JValue.str c), ("title", JValue.str ti)] =>
    (match ts with
     | JValue.null => some ⟨none, t, ti, c⟩
     | JValue.str s => some ⟨some s, t, ti, c⟩
     | _ => none)
  | _ => none

/-- Sequential option-valued map (all-or-nothing). -/
def mapOpt {A B : Type} (f : A → Option B) : List A → Option (List B)
  | [] => some []
  | x :: xs =>
    match f x with
    | none => none
    | some y =>
      match mapOpt f xs with
      | none => none
      | some ys => some (y :: ys)

/-- Reading a serialized sequence back as CaptionRecords. -/
def crsOfJ : JValue → Option (List CaptionRecord)
  | JValue.arr xs => mapOpt crOfJ xs
  | _ => none

/-- The block-level time of Strategy A:
`block.get("time") or block.get("time_range") or ""`. -/
def blockTime (kvs : List (String × JValue)) : JValue :=
  pyOr (dGet kvs "time") (pyOr (dGet kvs "time_range") (JValue.str ""))

/-- The block-level title of Strategy A: `block.get("title") or ""`. -/
def blockTitle (kvs : List (String × JValue)) : JValue :=
  pyOr (dGet kvs "title") (JValue.str "")

/-- Whether a Strategy-A block takes the inner-captions path: its `caption`
is a string whose stripped text holds a fenced document parsing to a
non-empty object with a `captions` key. -/
def innerHit (kvs : List (String × JValue)) : Bool :=
  match kvs.lookup "caption" with
  | some (JValue.str s) =>
    (match extract_fenced_json (pyStripS s) with
     | some ikvs => (!ikvs.isEmpty) && hasKeyKV ikvs "captions"
     | none => false)
  | _ => false

/-- The content of the single record a block emits when it does not take the
inner-captions path. -/
def blockContent (kvs : List (String × JValue)) : String :=
  match kvs.lookup "caption" with
  | some (JValue.str s) => strip_code_fence (pyStripS s)
  | _ =>
    match kvs.lookup "content" with
    | some (JValue.str s2) => strip_code_fence s2
    | _ => strip_code_fence (String.mk (dumpsC (JValue.obj kvs)))

/-- A dict block that does not take the inner-captions path emits exactly
one record, built from the block-level time, content and title. -/
theorem extract_blocks_of_not_innerHit (kvs : List (String × JValue))
    (h : innerHit kvs = false) :
    extract_blocks_from_script_caption (JValue.obj kvs) =
      .ok [⟨blockTime kvs, JValue.str (blockContent kvs), blockTitle kvs⟩] := by
  unfold extract_blocks_from_script_caption blockContent blockTime blockTitle
  unfold innerHit at h
  simp only [getObj]
  cases hc : kvs.lookup "caption" with
  | none =>
    cases hcon : kvs.lookup "content" with
    | none => simp
    | some w => cases w <;> simp
  | some v =>
    cases v
    case str s =>
      rw [hc] at h
      have h3 : (match extract_fenced_json (pyStripS s) with
                 | some ikvs => (!ikvs.isEmpty && hasKeyKV ikvs "captions")
                 | none => false) = false := h
      cases hf : extract_fenced_json (pyStripS s) with
      | none => simp [hf]
      | some ikvs =>
        rw [hf] at h3
        have h4 : (!ikvs.isEmpty && hasKeyKV ikvs "captions") = false := h3
        simp [hf]
        intro h5 h6
        rw [h6, Bool.and_true] at h4
        simp [List.isEmpty_iff] at h4
        exact absurd h4 h5
    all_goals
      cases hcon : kvs.lookup "content" with
      | none => simp
      | some w => cases w <;> simp

/-- Is an optional value a string? (`isinstance(d.get(k), str)` given the
key's presence is checked by the same lookup). -/
def isStrOpt : Option JValue → Bool
  | some (JValue.str _) => true
  | _ => false

/-- `c.get(k, dflt)` on an arbitrary value: dict lookup with default for
dicts (junk default otherwise; only used under dict hypotheses). -/
def jGetD (c : JValue) (k : String) (dflt : JValue) : JValue :=
  match c with
  | .obj ckvs => dGetD ckvs k dflt
  | _ => dflt

def blockTimeJ : JValue → JValue
  | .obj kvs => blockTime kvs
  | _ => JValue.null

def blockTitleJ : JValue → JValue
  | .obj kvs => blockTitle kvs
  | _ => JValue.null

def blockContentJ : JValue → String
  | .obj kvs => blockContent kvs
  | _ => ""

theorem mapM_innerRec : ∀ items : List JValue, (∀ c ∈ items, c.isObj = true) →
    mapExc innerRecOf items =
      .ok (items.map (fun c =>
        ⟨jGetD c "time" (JValue.str ""),
         jGetD c "content" (jGetD c "caption" (JValue.str "")),
         jGetD c "title" (JValue.str "")⟩))
  | [], _ => rfl
  | c :: items, h => by
    have hc := h c (List.mem_cons_self c items)
    cases c with
    | obj ckvs =>
      have ih := mapM_innerRec items (fun x hx => h x (List.mem_cons_of_mem _ hx))
      simp [mapExc, ih, innerRecOf, getObj, jGetD]
    | null => simp [JValue.isObj] at hc
    | bool b => simp [JValue.isObj] at hc
    | num n => simp [JValue.isObj] at hc
    | str s => simp [JValue.isObj] at hc
    | arr xs => simp [JValue.isObj] at hc

theorem mapM_blocks (ts : JValue) : ∀ blocks : List JValue,
    (∀ b ∈ blocks, ∃ kvs, b = JValue.obj kvs ∧ innerHit kvs = false) →
    (mapExc (fun block =>
       (extract_blocks_from_script_caption block).map
         (fun bs => bs.map (fun b => Rec.mk ts b.time b.content b.title))) blocks).map List.flatten
    = .ok (blocks.map (fun b =>
        Rec.mk ts (blockTimeJ b) (JValue.str (blockContentJ b)) (blockTitleJ b)))
  | [], _ => rfl
  | b :: blocks, h => by
    obtain ⟨kvs, rfl, hih⟩ := h b (List.mem_cons_self b blocks)
    have ih := mapM_blocks ts blocks (fun x hx => h x (List.mem_cons_of_mem _ hx))
    have he := extract_blocks_of_not_innerHit kvs hih
    simp only [mapExc, he, blockTimeJ, blockTitleJ, blockContentJ]
    cases hm : mapExc (fun block =>
       (extract_blocks_from_script_caption block).map
         (fun bs => bs.map (fun b => Rec.mk ts b.time b.content b.title))) blocks with
    | error e => rw [hm] at ih; exact absurd ih (by simp [Except.map])
    | ok rss =>
      rw [hm] at ih
      simp [Except.map] at ih ⊢
      simp [ih]
      intro a _
      cases a <;> simp [blockTimeJ, blockContentJ, blockTitleJ]

end GetContext

namespace GetContext

/-- Claim C9: a Strategy-A block that is an object with neither a
string-valued `caption` nor a string-valued `content` field contributes
exactly one record whose content is the fence-stripped compact JSON
serialization of the whole block, with the block-level time and title. -/
theorem claim_C9_unknown_block_stringified (kvs : List (String × JValue))
    (hcap : isStrOpt (kvs.lookup "caption") = false)
    (hcon : isStrOpt (kvs.lookup "content") = false) :
    extract_blocks_from_script_caption (JValue.obj kvs) =
      .ok [⟨blockTime kvs,
            JValue.str (strip_code_fence (String.mk (dumpsC (JValue.obj kvs)))),
            blockTitle kvs⟩] := by
  have hinner : innerHit kvs = false := by
    unfold innerHit
    cases hc : kvs.lookup "caption" with
    | none => rfl
    | some v =>
      cases v with
      | str s => rw [hc] at hcap; simp [isStrOpt] at hcap
      | null => rfl
      | bool b => rfl
      | num n => rfl
      | arr xs => rfl
      | obj o => rfl
  rw [extract_blocks_of_not_innerHit kvs hinner]
  have hbc : blockContent kvs = strip_code_fence (String.mk (dumpsC (JValue.obj kvs))) := by
    unfold blockContent
    cases hc : kvs.lookup "caption" with
    | none =>
      cases hc2 : kvs.lookup "content" with
      | none => rfl
      | some w =>
        cases w with
        | str s2 => rw [hc2] at hcon; simp [isStrOpt] at hcon
        | null => rfl
        | bool b => rfl
        | num n => rfl
        | arr xs => rfl
        | obj o => rfl
    | some v =>
      cases v with
      | str s => rw [hc] at hcap; simp [isStrOpt] at hcap
      | null =>
        cases hc2 : kvs.lookup "content" with
        | none => rfl
        | some w =>
          cases w with
          | str s2 => rw [hc2] at hcon; simp [isStrOpt] at hcon
          | null => rfl
          | bool b => rfl
          | num n => rfl
          | arr xs => rfl
          | obj o => rfl
      | bool b =>
        cases hc2 : kvs.lookup "content" with
        | none => rfl
        | some w =>
          cases w with
          | str s2 => rw [hc2] at hcon; simp [isStrOpt] at hcon
          | null => rfl
          | bool b2 => rfl
          | num n => rfl
          | arr xs => rfl
          | obj o => rfl
      | num n =>
        cases hc2 : kvs.lookup "content" with
        | none => rfl
        | some w =>
          cases w with
          | str s2 => rw [hc2] at hcon; simp [isStrOpt] at hcon
          | null => rfl
          | bool b => rfl
          | num n2 => rfl
          | arr xs => rfl
          | obj o => rfl
      | arr xs =>
        cases hc2 : kvs.lookup "content" with
        | none => rfl
        | some w =>
          cases w with
          | str s2 => rw [hc2] at hcon; simp [isStrOpt] at hcon
          | null => rfl
          | bool b => rfl
          | num n => rfl
          | arr xs2 => rfl
          | obj o => rfl
      | obj o =>
        cases hc2 : kvs.lookup "content" with
        | none => rfl
        | some w =>
          cases w with
          | str s2 => rw [hc2] at hcon; simp [isStrOpt] at hcon
          | null => rfl
          | bool b => rfl
          | num n => rfl
          | arr xs => rfl
          | obj o2 => rfl
  rw [hbc]

/-- Witness block for claim C9. -/
def kvsC9 : List (String × JValue) := [("time_range", JValue.str "5-10s"), ("x", JValue.num "1")]

/-- Witness for claim C9 at a concrete block with neither field. -/
theorem claim_C9_witness :
    extract_blocks_from_script_caption (JValue.obj kvsC9) =
      .ok [⟨blockTime kvsC9,
            JValue.str (strip_code_fence (String.mk (dumpsC (JValue.obj kvsC9)))),
            blockTitle kvsC9⟩] :=
  claim_C9_unknown_block_stringified kvsC9 (by decide) (by decide)

end GetContext

namespace GetContext

/-- Claim C10: for a Strategy-A block (not taking the inner-captions path)
with no truthy `time` field, a present truthy `time_range` is used as the
emitted record's time, and only when both are absent or falsy does the time
default to the empty string. -/
theorem claim_C10_time_range_fallback (kvs : List (String × JValue))
    (hinner : innerHit kvs = false)
    (ht : (dGet kvs "time").truthy = false) :
    extract_blocks_from_script_caption (JValue.obj kvs) =
      .ok [⟨(if (dGet kvs "time_range").truthy then dGet kvs "time_range" else JValue.str ""),
            JValue.str (blockContent kvs), blockTitle kvs⟩] := by
  rw [extract_blocks_of_not_innerHit kvs hinner]
  unfold blockTime pyOr
  rw [ht]
  simp

/-- Witness block for claim C10. -/
def kvsC10 : List (String × JValue) :=
  [("time_range", JValue.str "5-10s"), ("caption", JValue.str "Hi")]

/-- Witness for claim C10 at a concrete block with only `time_range`. -/
theorem claim_C10_witness :
    extract_blocks_from_script_caption (JValue.obj kvsC10) =
      .ok [⟨(if (dGet kvsC10 "time_range").truthy then dGet kvsC10 "time_range" else JValue.str ""),
            JValue.str (blockContent kvsC10), blockTitle kvsC10⟩] :=
  claim_C10_time_range_fallback kvsC10 (by decide) (by decide)

/-- Claim C5: a well-formed Strategy-A entry (truthy dict `data` whose
`script/caption` is a list of dict blocks, none taking the inner-captions
path) yields exactly one record per block, in block order, carrying the
entry's timestamp and each block's own time and title. -/
theorem claim_C5_block_per_record (ekvs dkvs : List (String × JValue)) (blocks : List JValue)
    (hd : dGet ekvs "data" = JValue.obj dkvs)
    (hne : dkvs ≠ [])
    (hsc : dGet dkvs "script/caption" = JValue.arr blocks)
    (hblocks : ∀ b ∈ blocks, ∃ kvs, b = JValue.obj kvs ∧ innerHit kvs = false) :
    extract_from_entry (JValue.obj ekvs) =
      .ok (blocks.map (fun b => Rec.mk (dGet ekvs "timestamp") (blockTimeJ b)
            (JValue.str (blockContentJ b)) (blockTitleJ b))) := by
  unfold extract_from_entry
  simp only [getObj]
  rw [hd]
  have hie : dkvs.isEmpty = false := by
    cases dkvs with
    | nil => exact absurd rfl hne
    | cons a l => rfl
  simp only [hie, Bool.not_false, if_true]
  rw [hsc]
  exact mapM_blocks (dGet ekvs "timestamp") blocks hblocks

/-- Witness entry for claim C5: two blocks, no embedded captions. -/
def blocksC5 : List JValue :=
  [JValue.obj [("time", JValue.str "0-10s"), ("caption", JValue.str "Hello world")],
   JValue.obj [("time_range", JValue.str "10-20s"), ("title", JValue.str "T"),
               ("content", JValue.str "Bye")]]

def ekvsC5 : List (String × JValue) :=
  [("timestamp", JValue.str "2024-01-01T00:00:00"),
   ("data", JValue.obj [("script/caption", JValue.arr blocksC5)])]

/-- Witness for claim C5 at a concrete two-block entry. -/
theorem claim_C5_witness :
    extract_from_entry (JValue.obj ekvsC5) =
      .ok (blocksC5.map (fun b => Rec.mk (dGet ekvsC5 "timestamp") (blockTimeJ b)
            (JValue.str (blockContentJ b)) (blockTitleJ b))) :=
  claim_C5_block_per_record ekvsC5 [("script/caption", JValue.arr blocksC5)] blocksC5
    rfl (by decide) rfl
    (by
      intro b hb
      simp only [blocksC5, List.mem_cons, List.mem_singleton] at hb
      rcases hb with rfl | rfl | h
      · exact ⟨_, rfl, by decide⟩
      · exact ⟨_, rfl, by decide⟩
      · simp at h)

end GetContext

namespace GetContext

/-- Claim C1 (amended): when a Strategy-A block's `caption` string holds a
fenced document parsing to a non-empty object with a `captions` list of
objects, each inner item becomes one record carrying the inner item's own
`time`, `content` (falling back to the inner `caption` field) and `title`,
defaulting to the empty string — never to the outer block's time or title —
whenever the inner item omits the key. -/
theorem claim_C1_inner_unpack (kvs ikvs : List (String × JValue)) (s : String)
    (items : List JValue)
    (hcap : kvs.lookup "caption" = some (JValue.str s))
    (hfence : extract_fenced_json (pyStripS s) = some ikvs)
    (hne : ikvs ≠ [])
    (hck : hasKeyKV ikvs "captions" = true)
    (hitems : dGet ikvs "captions" = JValue.arr items)
    (hobj : ∀ c ∈ items, c.isObj = true) :
    extract_blocks_from_script_caption (JValue.obj kvs) =
      .ok (items.map (fun c =>
        ⟨jGetD c "time" (JValue.str ""),
         jGetD c "content" (jGetD c "caption" (JValue.str "")),
         jGetD c "title" (JValue.str "")⟩)) := by
  unfold extract_blocks_from_script_caption
  simp only [getObj]
  simp only [hcap]
  rw [hfence]
  have hcond : (!ikvs.isEmpty && hasKeyKV ikvs "captions") = true := by
    rw [hck, Bool.and_true]
    cases ikvs with
    | nil => exact absurd rfl hne
    | cons a l => rfl
  simp only [hcond, if_true]
  rw [hitems]
  simp only [pyIter]
  exact mapM_innerRec items hobj

/-- The inner item of the C1 scenario. -/
def itemC1 : JValue := JValue.obj [("content", JValue.str "Hi")]

/-- The fenced-object fields of the C1 scenario. -/
def ikvsC1 : List (String × JValue) := [("captions", JValue.arr [itemC1])]

/-- The caption text of the C1 scenario: a fenced `captions` document whose
single item omits `time` and `title`. -/
def captionC1 : String :=
  "```json\n\x7b\"captions\":[\x7b\"content\":\"Hi\"\x7d]\x7d\n```"

/-- The C1 block: outer `time` and `title` present, inner item omits both. -/
def kvsC1 : List (String × JValue) :=
  [("time", JValue.str "0-10s"), ("title", JValue.str "Out"),
   ("caption", JValue.str captionC1)]

def entryC1 : JValue :=
  JValue.obj [("timestamp", JValue.str "T"),
              ("data", JValue.obj [("script/caption", JValue.arr [JValue.obj kvsC1])])]

/-- Counterexample to claim C1 as stated: the unpacked record takes empty
time and title, not the outer block's `0-10s` / `Out` that the claimed
fallback would require. -/
theorem claim_C1_counterexample :
    extract_from_entry entryC1 =
      .ok [⟨JValue.str "T", JValue.str "", JValue.str "Hi", JValue.str ""⟩] ∧
    extract_from_entry entryC1 ≠
      .ok [⟨JValue.str "T", JValue.str "0-10s", JValue.str "Hi", JValue.str "Out"⟩] := by
  constructor
  · decide
  · decide

/-- Witness for the amended claim C1 at the concrete block of the scenario. -/
theorem claim_C1_witness :
    extract_blocks_from_script_caption (JValue.obj kvsC1) =
      .ok ([itemC1].map (fun c =>
        ⟨jGetD c "time" (JValue.str ""),
         jGetD c "content" (jGetD c "caption" (JValue.str "")),
         jGetD c "title" (JValue.str "")⟩)) :=
  claim_C1_inner_unpack kvsC1 ikvsC1 captionC1 [itemC1]
    (by decide) (by decide) (by decide) (by decide) (by decide)
    (by intro c hc; simp only [List.mem_singleton] at hc; rw [hc]; decide)

end GetContext

namespace GetContext

/-- Strategy A as a standalone function: per-block extraction over the
`script/caption` list, each block record completed with the timestamp. -/
def strategyA (ts : JValue) (blocks : List JValue) : Except String (List Rec) :=
  (mapExc (fun block =>
     (extract_blocks_from_script_caption block).map
       (fun bs => bs.map (fun b => Rec.mk ts b.time b.content b.title))) blocks).map
    List.flatten

/-- Strategy B as a standalone function over the `results` list. -/
def strategyB (ts : JValue) (rs : List JValue) : List Rec :=
  (rs.map (perResult ts)).flatten

/-- Strategy C as a standalone function over all entry fields. -/
def strategyC (ts : JValue) (ekvs : List (String × JValue)) : Except String (List Rec) :=
  (mapExc (perField ts) ekvs).map List.flatten

/-- Strategy A's shape test: `data` is a truthy dict whose `script/caption`
is a list. -/
def shapeA (ekvs : List (String × JValue)) : Bool :=
  match dGet ekvs "data" with
  | .obj dkvs => (!dkvs.isEmpty) && (dGet dkvs "script/caption").isArr
  | _ => false

/-- Strategy B's shape test: `results` is a list. -/
def shapeB (ekvs : List (String × JValue)) : Bool :=
  (dGet ekvs "results").isArr

def aBlocks (ekvs : List (String × JValue)) : List JValue :=
  match dGet ekvs "data" with
  | .obj dkvs =>
    (match dGet dkvs "script/caption" with
     | .arr bs => bs
     | _ => [])
  | _ => []

def bResults (ekvs : List (String × JValue)) : List JValue :=
  match dGet ekvs "results" with
  | .arr rs => rs
  | _ => []

/-- Dispatch of `extract_from_entry` by shape alone: the first strategy whose
shape matches determines the result, regardless of how many records it
yields. -/
theorem extract_dispatch (ekvs : List (String × JValue)) :
    (shapeA ekvs = true →
      extract_from_entry (JValue.obj ekvs) = strategyA (dGet ekvs "timestamp") (aBlocks ekvs))
    ∧ (shapeA ekvs = false → shapeB ekvs = true →
      extract_from_entry (JValue.obj ekvs) =
        .ok (strategyB (dGet ekvs "timestamp") (bResults ekvs)))
    ∧ (shapeA ekvs = false → shapeB ekvs = false →
      extract_from_entry (JValue.obj ekvs) = strategyC (dGet ekvs "timestamp") ekvs) := by
  refine ⟨?_, ?_, ?_⟩
  · intro hA
    unfold shapeA at hA
    unfold extract_from_entry strategyA aBlocks
    simp only [getObj]
    cases hd : dGet ekvs "data" with
    | obj dkvs =>
      rw [hd] at hA
      have hA2 : ((!dkvs.isEmpty) && (dGet dkvs "script/caption").isArr) = true := hA
      rw [Bool.and_eq_true] at hA2
      obtain ⟨h1, h2⟩ := hA2
      cases hsc : dGet dkvs "script/caption" with
      | arr bs => simp [h1, hsc]
      | null => rw [hsc] at h2; exact Bool.noConfusion h2
      | bool b => rw [hsc] at h2; exact Bool.noConfusion h2
      | num n => rw [hsc] at h2; exact Bool.noConfusion h2
      | str s => rw [hsc] at h2; exact Bool.noConfusion h2
      | obj o => rw [hsc] at h2; exact Bool.noConfusion h2
    | null => rw [hd] at hA; exact Bool.noConfusion hA
    | bool b => rw [hd] at hA; exact Bool.noConfusion hA
    | num n => rw [hd] at hA; exact Bool.noConfusion hA
    | str s => rw [hd] at hA; exact Bool.noConfusion hA
    | arr xs => rw [hd] at hA; exact Bool.noConfusion hA
  · intro hA hB
    unfold shapeA at hA
    unfold shapeB at hB
    unfold extract_from_entry strategyB bResults
    simp only [getObj]
    cases hre : dGet ekvs "results" with
    | arr rs =>
      cases hd : dGet ekvs "data" with
      | obj dkvs =>
        rw [hd] at hA
        have hA2 : ((!dkvs.isEmpty) && (dGet dkvs "script/caption").isArr) = false := hA
        cases hie : dkvs.isEmpty with
        | true => simp [hie, hre]
        | false =>
          rw [hie, Bool.not_false, Bool.true_and] at hA2
          cases hsc : dGet dkvs "script/caption" with
          | arr bs => rw [hsc] at hA2; exact Bool.noConfusion hA2
          | null => simp [hie, hsc, hre]
          | bool b => simp [hie, hsc, hre]
          | num n => simp [hie, hsc, hre]
          | str s => simp [hie, hsc, hre]
          | obj o => simp [hie, hsc, hre]
      | null => simp [hd, hre]
      | bool b => simp [hd, hre]
      | num n => simp [hd, hre]
      | str s => simp [hd, hre]
      | arr xs => simp [hd, hre]
    | null => rw [hre] at hB; exact Bool.noConfusion hB
    | bool b => rw [hre] at hB; exact Bool.noConfusion hB
    | num n => rw [hre] at hB; exact Bool.noConfusion hB
    | str s => rw [hre] at hB; exact Bool.noConfusion hB
    | obj o => rw [hre] at hB; exact Bool.noConfusion hB
  · intro hA hB
    unfold shapeA at hA
    unfold shapeB at hB
    unfold extract_from_entry strategyC
    simp only [getObj]
    cases hre : dGet ekvs "results" with
    | arr rs => rw [hre] at hB; exact Bool.noConfusion hB
    | null =>
      cases hd : dGet ekvs "data" with
      | obj dkvs =>
        rw [hd] at hA
        have hA2 : ((!dkvs.isEmpty) && (dGet dkvs "script/caption").isArr) = false := hA
        cases hie : dkvs.isEmpty with
        | true => simp [hie, hre]
        | false =>
          rw [hie, Bool.not_false, Bool.true_and] at hA2
          cases hsc : dGet dkvs "script/caption" with
          | arr bs => rw [hsc] at hA2; exact Bool.noConfusion hA2
          | null => simp [hie, hsc, hre]
          | bool b => simp [hie, hsc, hre]
          | num n => simp [hie, hsc, hre]
          | str s => simp [hie, hsc, hre]
          | obj o => simp [hie, hsc, hre]
      | null => simp [hd, hre]
      | bool b => simp [hd, hre]
      | num n => simp [hd, hre]
      | str s => simp [hd, hre]
      | arr xs => simp [hd, hre]
    | bool b2 =>
      cases hd : dGet ekvs "data" with
      | obj dkvs =>
        rw [hd] at hA
        have hA2 : ((!dkvs.isEmpty) && (dGet dkvs "script/caption").isArr) = false := hA
        cases hie : dkvs.isEmpty with
        | true => simp [hie, hre]
        | false =>
          rw [hie, Bool.not_false, Bool.true_and] at hA2
          cases hsc : dGet dkvs "script/caption" with
          | arr bs => rw [hsc] at hA2; exact Bool.noConfusion hA2
          | null => simp [hie, hsc, hre]
          | bool b => simp [hie, hsc, hre]
          | num n => simp [hie, hsc, hre]
          | str s => simp [hie, hsc, hre]
          | obj o => simp [hie, hsc, hre]
      | null => simp [hd, hre]
      | bool b => simp [hd, hre]
      | num n => simp [hd, hre]
      | str s => simp [hd, hre]
      | arr xs => simp [hd, hre]
    | num n2 =>
      cases hd : dGet ekvs "data" with
      | obj dkvs =>
        rw [hd] at hA
        have hA2 : ((!dkvs.isEmpty) && (dGet dkvs "script/caption").isArr) = false := hA
        cases hie : dkvs.isEmpty with
        | true => simp [hie, hre]
        | false =>
          rw [hie, Bool.not_false, Bool.true_and] at hA2
          cases hsc : dGet dkvs "script/caption" with
          | arr bs => rw [hsc] at hA2; exact Bool.noConfusion hA2
          | null => simp [hie, hsc, hre]
          | bool b => simp [hie, hsc, hre]
          | num n => simp [hie, hsc, hre]
          | str s => simp [hie, hsc, hre]
          | obj o => simp [hie, hsc, hre]
      | null => simp [hd, hre]
      | bool b => simp [hd, hre]
      | num n => simp [hd, hre]
      | str s => simp [hd, hre]
      | arr xs => simp [hd, hre]
    | str s2 =>
      cases hd : dGet ekvs "data" with
      | obj dkvs =>
        rw [hd] at hA
        have hA2 : ((!dkvs.isEmpty) && (dGet dkvs "script/caption").isArr) = false := hA
        cases hie : dkvs.isEmpty with
        | true => simp [hie, hre]
        | false =>
          rw [hie, Bool.not_false, Bool.true_and] at hA2
          cases hsc : dGet dkvs "script/caption" with
          | arr bs => rw [hsc] at hA2; exact Bool.noConfusion hA2
          | null => simp [hie, hsc, hre]
          | bool b => simp [hie, hsc, hre]
          | num n => simp [hie, hsc, hre]
          | str s => simp [hie, hsc, hre]
          | obj o => simp [hie, hsc, hre]
      | null => simp [hd, hre]
      | bool b => simp [hd, hre]
      | num n => simp [hd, hre]
      | str s => simp [hd, hre]
      | arr xs => simp [hd, hre]
    | obj o2 =>
      cases hd : dGet ekvs "data" with
      | obj dkvs =>
        rw [hd] at hA
        have hA2 : ((!dkvs.isEmpty) && (dGet dkvs "script/caption").isArr) = false := hA
        cases hie : dkvs.isEmpty with
        | true => simp [hie, hre]
        | false =>
          rw [hie, Bool.not_false, Bool.true_and] at hA2
          cases hsc : dGet dkvs "script/caption" with
          | arr bs => rw [hsc] at hA2; exact Bool.noConfusion hA2
          | null => simp [hie, hsc, hre]
          | bool b => simp [hie, hsc, hre]
          | num n => simp [hie, hsc, hre]
          | str s => simp [hie, hsc, hre]
          | obj o => simp [hie, hsc, hre]
      | null => simp [hd, hre]
      | bool b => simp [hd, hre]
      | num n => simp [hd, hre]
      | str s => simp [hd, hre]
      | arr xs => simp [hd, hre]

end GetContext

namespace GetContext

/-- Claim C2 (amended): extraction returns the result of the first strategy
whose shape matches, even when that strategy yields zero records; Strategy B
is consulted only when Strategy A's shape is absent, and Strategy C only
when both shapes are absent. -/
theorem claim_C2_shape_dispatch (ekvs : List (String × JValue)) :
    (shapeA ekvs = true →
      extract_from_entry (JValue.obj ekvs) = strategyA (dGet ekvs "timestamp") (aBlocks ekvs))
    ∧ (shapeA ekvs = false → shapeB ekvs = true →
      extract_from_entry (JValue.obj ekvs) =
        .ok (strategyB (dGet ekvs "timestamp") (bResults ekvs)))
    ∧ (shapeA ekvs = false → shapeB ekvs = false →
      extract_from_entry (JValue.obj ekvs) = strategyC (dGet ekvs "timestamp") ekvs) :=
  extract_dispatch ekvs

/-- The C2 scenario: Strategy A's shape matches with an empty block list
while `results` holds a caption string. -/
def ekvsC2 : List (String × JValue) :=
  [("data", JValue.obj [("script/caption", JValue.arr [])]),
   ("results", JValue.arr [JValue.str "hello"])]

/-- Counterexample to claim C2 as stated: the entry's Strategy-A shape
yields zero records, yet extraction returns that empty result instead of
handing the entry to Strategy B, which would have produced one record. -/
theorem claim_C2_counterexample :
    extract_from_entry (JValue.obj ekvsC2) = .ok [] ∧
    strategyB (dGet ekvsC2 "timestamp") (bResults ekvsC2) =
      [⟨JValue.null, JValue.str "", JValue.str "hello", JValue.str ""⟩] := by
  constructor
  · decide
  · decide

/-- Witness entry for the amended claim C2: no `data`, so Strategy B's shape
is the first to match. -/
def ekvsC2w : List (String × JValue) := [("results", JValue.arr [JValue.str "hi"])]

/-- Witness for the amended claim C2 at a concrete entry resolved by shape B. -/
theorem claim_C2_witness :
    extract_from_entry (JValue.obj ekvsC2w) =
      .ok (strategyB (dGet ekvsC2w "timestamp") (bResults ekvsC2w)) :=
  (claim_C2_shape_dispatch ekvsC2w).2.1 (by decide) (by decide)

end GetContext

namespace GetContext

/-- Safety of iterating an embedded `captions` value and calling `.get` on
each element: a list of dicts, or an empty string / empty dict (which
iterate to nothing); every other shape raises. -/
def capsIterSafe : JValue → Bool
  | .arr xs => xs.all JValue.isObj
  | .str s => s.isEmpty
  | .obj kvs => kvs.isEmpty
  | _ => false

/-- Safety of a dict block's fields: an unpacked `captions` value must
iterate to dicts only. -/
def blockSafeKVs (kvs : List (String × JValue)) : Bool :=
  match kvs.lookup "caption" with
  | some (JValue.str s) =>
    (match extract_fenced_json (pyStripS s) with
     | some ikvs =>
       if (!ikvs.isEmpty) && hasKeyKV ikvs "captions" then capsIterSafe (dGet ikvs "captions")
       else true
     | none => true)
  | _ => true

/-- Safety of one Strategy-A block: it must be a dict, and an unpacked
`captions` value must iterate to dicts only. -/
def blockSafe (b : JValue) : Bool :=
  match b with
  | .obj kvs => blockSafeKVs kvs
  | _ => false

/-- Safety of one Strategy-C field: items of a matched `script/caption` or
`captions` list must all be dicts. -/
def fieldSafe (kv : String × JValue) : Bool :=
  match kv.2 with
  | .str s =>
    (match extract_fenced_json s with
     | some ikvs =>
       if !ikvs.isEmpty then
         (match pyOr (dGet ikvs "script/caption") (dGet ikvs "captions") with
          | .arr items => items.all JValue.isObj
          | _ => true)
       else true
     | none => true)
  | _ => true

/-- The weakest shape condition under which `extract_from_entry` cannot
raise, following its control flow: the entry is a dict; along Strategy A
every block is safe; Strategy B is always safe; along Strategy C every
scanned field is safe. -/
def entrySafe (e : JValue) : Bool :=
  match e with
  | .obj ekvs =>
    (match dGet ekvs "data" with
     | .obj dkvs =>
       if !dkvs.isEmpty then
         (match dGet dkvs "script/caption" with
          | .arr blocks => blocks.all blockSafe
          | _ => (dGet ekvs "results").isArr || ekvs.all fieldSafe)
       else (dGet ekvs "results").isArr || ekvs.all fieldSafe
     | _ => (dGet ekvs "results").isArr || ekvs.all fieldSafe)
  | _ => false

theorem mapExc_ok {A B : Type} (f : A → Except String B) :
    ∀ l : List A, (∀ x ∈ l, ∃ y, f x = .ok y) → ∃ ys, mapExc f l = .ok ys
  | [], _ => ⟨[], rfl⟩
  | x :: xs, h => by
    obtain ⟨y, hy⟩ := h x (List.mem_cons_self x xs)
    obtain ⟨ys, hys⟩ := mapExc_ok f xs (fun a ha => h a (List.mem_cons_of_mem _ ha))
    exact ⟨y :: ys, by simp [mapExc, hy, hys]⟩

theorem pyIter_ok_of_capsIterSafe (v : JValue) (h : capsIterSafe v = true) :
    ∃ items, pyIter v = .ok items ∧ ∀ c ∈ items, c.isObj = true := by
  cases v with
  | arr xs =>
    refine ⟨xs, rfl, ?_⟩
    have h2 : xs.all JValue.isObj = true := h
    exact fun c hc => List.all_eq_true.mp h2 c hc
  | str s =>
    have h2 : s.isEmpty = true := h
    have h3 : s = "" := (String.isEmpty_iff s).mp h2
    subst h3
    exact ⟨[], rfl, by simp⟩
  | obj kvs =>
    have h2 : kvs.isEmpty = true := h
    have h3 : kvs = [] := by
      cases kvs with
      | nil => rfl
      | cons a l => exact Bool.noConfusion h2
    subst h3
    exact ⟨[], rfl, by simp⟩
  | null => exact Bool.noConfusion h
  | bool b => exact Bool.noConfusion h
  | num n => exact Bool.noConfusion h

theorem extract_blocks_ok_of_blockSafe (b : JValue) (h : blockSafe b = true) :
    ∃ l, extract_blocks_from_script_caption b = .ok l := by
  cases b with
  | obj kvs =>
    unfold extract_blocks_from_script_caption
    simp only [getObj]
    cases hc : kvs.lookup "caption" with
    | none =>
      cases hc2 : kvs.lookup "content" with
      | none => exact ⟨_, rfl⟩
      | some w => cases w <;> exact ⟨_, rfl⟩
    | some v =>
      cases v with
      | str s =>
        have h1 : blockSafeKVs kvs = true := h
        unfold blockSafeKVs at h1
        rw [hc] at h1
        have h2 : (match extract_fenced_json (pyStripS s) with
                   | some ikvs =>
                     if (!ikvs.isEmpty) && hasKeyKV ikvs "captions" then
                       capsIterSafe (dGet ikvs "captions")
                     else true
                   | none => true) = true := h1
        cases hf : extract_fenced_json (pyStripS s) with
        | none => exact ⟨_, by simp only [hf]; rfl⟩
        | some ikvs =>
          rw [hf] at h2
          have h3 : (if ((!ikvs.isEmpty) && hasKeyKV ikvs "captions") = true then
                       capsIterSafe (dGet ikvs "captions")
                     else true) = true := h2
          cases hcond : (!ikvs.isEmpty) && hasKeyKV ikvs "captions" with
          | false => exact ⟨_, by simp only [hf, hcond]; rfl⟩
          | true =>
            rw [hcond, if_pos rfl] at h3
            obtain ⟨items, hit, hobj⟩ := pyIter_ok_of_capsIterSafe _ h3
            obtain ⟨ys, hys⟩ := mapExc_ok innerRecOf items
              (fun c hcm => by
                cases c with
                | obj ckvs => exact ⟨_, rfl⟩
                | null => exact absurd (hobj _ hcm) (by simp [JValue.isObj])
                | bool b2 => exact absurd (hobj _ hcm) (by simp [JValue.isObj])
                | num n2 => exact absurd (hobj _ hcm) (by simp [JValue.isObj])
                | str s2 => exact absurd (hobj _ hcm) (by simp [JValue.isObj])
                | arr xs2 => exact absurd (hobj _ hcm) (by simp [JValue.isObj]))
            refine ⟨ys, ?_⟩
            simp [hf, hcond, hit, hys]
      | null =>
        cases hc2 : kvs.lookup "content" with
        | none => exact ⟨_, rfl⟩
        | some w => cases w <;> exact ⟨_, rfl⟩
      | bool b2 =>
        cases hc2 : kvs.lookup "content" with
        | none => exact ⟨_, rfl⟩
        | some w => cases w <;> exact ⟨_, rfl⟩
      | num n2 =>
        cases hc2 : kvs.lookup "content" with
        | none => exact ⟨_, rfl⟩
        | some w => cases w <;> exact ⟨_, rfl⟩
      | arr xs2 =>
        cases hc2 : kvs.lookup "content" with
        | none => exact ⟨_, rfl⟩
        | some w => cases w <;> exact ⟨_, rfl⟩
      | obj o2 =>
        cases hc2 : kvs.lookup "content" with
        | none => exact ⟨_, rfl⟩
        | some w => cases w <;> exact ⟨_, rfl⟩
  | null => exact Bool.noConfusion h
  | bool b2 => exact Bool.noConfusion h
  | num n2 => exact Bool.noConfusion h
  | str s2 => exact Bool.noConfusion h
  | arr xs2 => exact Bool.noConfusion h

theorem perField_ok_of_fieldSafe (ts : JValue) (kv : String × JValue)
    (h : fieldSafe kv = true) : ∃ l, perField ts kv = .ok l := by
  obtain ⟨k, v⟩ := kv
  cases v with
  | str s =>
    have h1 : (match extract_fenced_json s with
               | some ikvs =>
                 if !ikvs.isEmpty then
                   (match pyOr (dGet ikvs "script/caption") (dGet ikvs "captions") with
                    | .arr items => items.all JValue.isObj
                    | _ => true)
                 else true
               | none => true) = true := h
    unfold perField
    cases hf : extract_fenced_json s with
    | none => exact ⟨_, by simp only [hf]; rfl⟩
    | some ikvs =>
      rw [hf] at h1
      have h2 : (if (!ikvs.isEmpty) = true then
                   (match pyOr (dGet ikvs "script/caption") (dGet ikvs "captions") with
                    | .arr items => items.all JValue.isObj
                    | _ => true)
                 else true) = true := h1
      cases hie : !ikvs.isEmpty with
      | false => exact ⟨_, by simp only [hf, hie]; rfl⟩
      | true =>
        rw [hie, if_pos rfl] at h2
        cases hsc : pyOr (dGet ikvs "script/caption") (dGet ikvs "captions") with
        | arr items =>
          rw [hsc] at h2
          obtain ⟨ys, hys⟩ := mapExc_ok
            (fun item =>
              match item with
              | JValue.obj ckvs =>
                Except.ok (Rec.mk ts (pyOr (dGet ckvs "time") (JValue.str ""))
                  (JValue.str (strip_code_fence (pyStr (pyOr (dGet ckvs "caption")
                    (pyOr (dGet ckvs "content") (JValue.str ""))))))
                  (pyOr (dGet ckvs "title") (JValue.str "")))
              | _ => Except.error "AttributeError") items
            (fun c hcm => by
              have hco := List.all_eq_true.mp h2 c hcm
              cases c with
              | obj ckvs => exact ⟨_, rfl⟩
              | null => exact absurd hco (by simp [JValue.isObj])
              | bool b2 => exact absurd hco (by simp [JValue.isObj])
              | num n2 => exact absurd hco (by simp [JValue.isObj])
              | str s2 => exact absurd hco (by simp [JValue.isObj])
              | arr xs2 => exact absurd hco (by simp [JValue.isObj]))
          refine ⟨ys, ?_⟩
          simp [hf, hie, hsc, hys]
        | null => exact ⟨_, by simp only [hf, hie, hsc]; rfl⟩
        | bool b2 => exact ⟨_, by simp only [hf, hie, hsc]; rfl⟩
        | num n2 => exact ⟨_, by simp only [hf, hie, hsc]; rfl⟩
        | str s2 => exact ⟨_, by simp only [hf, hie, hsc]; rfl⟩
        | obj o2 => exact ⟨_, by simp only [hf, hie, hsc]; rfl⟩
  | null => exact ⟨_, rfl⟩
  | bool b2 => exact ⟨_, rfl⟩
  | num n2 => exact ⟨_, rfl⟩
  | arr xs2 => exact ⟨_, rfl⟩
  | obj o2 => exact ⟨_, rfl⟩

end GetContext

namespace GetContext

/-- `entrySafe` on a dict entry, rephrased along the shape dispatch. -/
theorem entrySafe_obj_eq (ekvs : List (String × JValue)) :
    entrySafe (JValue.obj ekvs) =
      (if shapeA ekvs then (aBlocks ekvs).all blockSafe
       else (shapeB ekvs || ekvs.all fieldSafe)) := by
  unfold entrySafe shapeA shapeB aBlocks
  cases hd : dGet ekvs "data" with
  | obj dkvs =>
    cases hie : dkvs.isEmpty with
    | true => simp [hd, hie]
    | false =>
      cases hsc : dGet dkvs "script/caption" with
      | arr bs => simp [hd, hie, hsc, JValue.isArr]
      | null => simp [hd, hie, hsc, JValue.isArr]
      | bool b => simp [hd, hie, hsc, JValue.isArr]
      | num n => simp [hd, hie, hsc, JValue.isArr]
      | str s2 => simp [hd, hie, hsc, JValue.isArr]
      | obj o => simp [hd, hie, hsc, JValue.isArr]
  | null => simp [hd]
  | bool b => simp [hd]
  | num n => simp [hd]
  | str s2 => simp [hd]
  | arr xs => simp [hd]

/-- Claim C3 (amended): extraction returns a list rather than raising for
every entry satisfying `entrySafe`: the entry is a dict, Strategy-A blocks
(when that shape is matched) are dicts whose unpacked `captions` iterate to
dicts, and Strategy-C items (when that scan is reached) are dicts; outside
these conditions extraction can raise. -/
theorem claim_C3_no_raise (e : JValue) (h : entrySafe e = true) :
    ∃ recs, extract_from_entry e = .ok recs := by
  cases e with
  | obj ekvs =>
    have hd := extract_dispatch ekvs
    rw [entrySafe_obj_eq ekvs] at h
    cases hA : shapeA ekvs with
    | true =>
      rw [hA, if_pos rfl] at h
      rw [hd.1 hA]
      unfold strategyA
      obtain ⟨ys, hys⟩ := mapExc_ok
        (fun block =>
          (extract_blocks_from_script_caption block).map
            (fun bs => bs.map (fun b =>
              Rec.mk (dGet ekvs "timestamp") b.time b.content b.title)))
        (aBlocks ekvs)
        (fun b hb => by
          obtain ⟨l, hl⟩ := extract_blocks_ok_of_blockSafe b (List.all_eq_true.mp h b hb)
          exact ⟨l.map (fun x => Rec.mk (dGet ekvs "timestamp") x.time x.content x.title),
            by simp [hl, Except.map]⟩)
      exact ⟨ys.flatten, by rw [hys]; rfl⟩
    | false =>
      rw [hA] at h
      simp only [Bool.false_eq_true, if_false] at h
      cases hB : shapeB ekvs with
      | true => exact ⟨_, hd.2.1 hA hB⟩
      | false =>
        rw [hB, Bool.false_or] at h
        rw [hd.2.2 hA hB]
        unfold strategyC
        obtain ⟨ys, hys⟩ := mapExc_ok (perField (dGet ekvs "timestamp")) ekvs
          (fun kv hkv => perField_ok_of_fieldSafe (dGet ekvs "timestamp") kv
            (List.all_eq_true.mp h kv hkv))
        exact ⟨ys.flatten, by rw [hys]; rfl⟩
  | null => exact Bool.noConfusion h
  | bool b => exact Bool.noConfusion h
  | num n => exact Bool.noConfusion h
  | str s2 => exact Bool.noConfusion h
  | arr xs => exact Bool.noConfusion h

/-- The C3 counterexample entry: a Strategy-A list whose block is the
number `0`. -/
def entryC3 : JValue :=
  JValue.obj [("data", JValue.obj [("script/caption", JValue.arr [JValue.num "0"])])]

/-- Counterexample to claim C3 as stated: a parsed JSON entry on which
extraction raises (`0 .get` is an AttributeError), rather than returning a
list of records. -/
theorem claim_C3_counterexample :
    extract_from_entry entryC3 = .error "AttributeError" := by decide

/-- Witness entry for the amended claim C3. -/
def entryC3w : JValue := JValue.obj [("results", JValue.arr [JValue.str "ok"])]

/-- Witness for the amended claim C3 at a concrete safe entry. -/
theorem claim_C3_witness : ∃ recs, extract_from_entry entryC3w = .ok recs :=
  claim_C3_no_raise entryC3w (by decide)

end GetContext

namespace GetContext

/-- Does a character list contain a triple-backtick run? -/
def containsTicks : List Char → Bool
  | [] => false
  | c :: rest => ticks3.isPrefixOf (c :: rest) || containsTicks rest

/-- No Strategy-A block of the entry unpacks an embedded captions array. -/
def entryNoInner (e : JValue) : Bool :=
  match e with
  | .obj ekvs =>
    (if shapeA ekvs then
       (aBlocks ekvs).all (fun b =>
         match b with
         | .obj kvs => !(innerHit kvs)
         | _ => true)
     else true)
  | _ => true

theorem mapExc_mem_ok {A B : Type} (f : A → Except String B) :
    ∀ (l : List A) (ys : List B), mapExc f l = .ok ys → ∀ y ∈ ys, ∃ x ∈ l, f x = .ok y
  | [], ys, h => by
    have h2 : Except.ok ([] : List B) = Except.ok ys := h
    rw [← Except.ok.inj h2]
    intro y hy
    exact absurd hy (List.not_mem_nil y)
  | x :: xs, ys, h => by
    intro y hy
    unfold mapExc at h
    cases hfx : f x with
    | error e => rw [hfx] at h; exact Except.noConfusion h
    | ok y1 =>
      rw [hfx] at h
      cases hm : mapExc f xs with
      | error e => rw [hm] at h; exact Except.noConfusion h
      | ok ys1 =>
        rw [hm] at h
        have h2 : y1 :: ys1 = ys := Except.ok.inj h
        rw [← h2] at hy
        cases hy with
        | head => exact ⟨x, List.mem_cons_self x xs, hfx⟩
        | tail _ hy2 =>
          obtain ⟨x2, hx2, hfx2⟩ := mapExc_mem_ok f xs ys1 hm y hy2
          exact ⟨x2, List.mem_cons_of_mem _ hx2, hfx2⟩

/-- Every arm of `blockContent` applies `strip_code_fence`. -/
theorem blockContent_strip (kvs : List (String × JValue)) :
    ∃ s : String, blockContent kvs = strip_code_fence s := by
  unfold blockContent
  cases hc : kvs.lookup "caption" with
  | some v =>
    cases v with
    | str s => exact ⟨pyStripS s, rfl⟩
    | null => cases hc2 : kvs.lookup "content" with
      | some w => cases w with
        | str s2 => exact ⟨s2, rfl⟩
        | null => exact ⟨_, rfl⟩
        | bool b => exact ⟨_, rfl⟩
        | num n => exact ⟨_, rfl⟩
        | arr xs => exact ⟨_, rfl⟩
        | obj o => exact ⟨_, rfl⟩
      | none => exact ⟨_, rfl⟩
    | bool b => cases hc2 : kvs.lookup "content" with
      | some w => cases w with
        | str s2 => exact ⟨s2, rfl⟩
        | null => exact ⟨_, rfl⟩
        | bool b2 => exact ⟨_, rfl⟩
        | num n => exact ⟨_, rfl⟩
        | arr xs => exact ⟨_, rfl⟩
        | obj o => exact ⟨_, rfl⟩
      | none => exact ⟨_, rfl⟩
    | num n => cases hc2 : kvs.lookup "content" with
      | some w => cases w with
        | str s2 => exact ⟨s2, rfl⟩
        | null => exact ⟨_, rfl⟩
        | bool b => exact ⟨_, rfl⟩
        | num n2 => exact ⟨_, rfl⟩
        | arr xs => exact ⟨_, rfl⟩
        | obj o => exact ⟨_, rfl⟩
      | none => exact ⟨_, rfl⟩
    | arr xs => cases hc2 : kvs.lookup "content" with
      | some w => cases w with
        | str s2 => exact ⟨s2, rfl⟩
        | null => exact ⟨_, rfl⟩
        | bool b => exact ⟨_, rfl⟩
        | num n => exact ⟨_, rfl⟩
        | arr xs2 => exact ⟨_, rfl⟩
        | obj o => exact ⟨_, rfl⟩
      | none => exact ⟨_, rfl⟩
    | obj o => cases hc2 : kvs.lookup "content" with
      | some w => cases w with
        | str s2 => exact ⟨s2, rfl⟩
        | null => exact ⟨_, rfl⟩
        | bool b => exact ⟨_, rfl⟩
        | num n => exact ⟨_, rfl⟩
        | arr xs => exact ⟨_, rfl⟩
        | obj o2 => exact ⟨_, rfl⟩
      | none => exact ⟨_, rfl⟩
  | none => cases hc2 : kvs.lookup "content" with
    | some w => cases w with
      | str s2 => exact ⟨s2, rfl⟩
      | null => exact ⟨_, rfl⟩
      | bool b => exact ⟨_, rfl⟩
      | num n => exact ⟨_, rfl⟩
      | arr xs => exact ⟨_, rfl⟩
      | obj o => exact ⟨_, rfl⟩
    | none => exact ⟨_, rfl⟩

theorem perResult_content (ts r : JValue) :
    ∀ rec ∈ perResult ts r, ∃ s : String, rec.content = JValue.str (strip_code_fence s) := by
  intro rec hrec
  cases r with
  | str s0 =>
    simp only [perResult] at hrec
    cases hf : extract_fenced_json s0 with
    | none =>
      simp only [hf] at hrec
      simp at hrec
      rw [hrec]
      exact ⟨s0, rfl⟩
    | some ikvs =>
      simp only [hf] at hrec
      cases hie : !ikvs.isEmpty with
      | false =>
        simp only [hie, Bool.false_eq_true, if_false] at hrec
        simp at hrec
        rw [hrec]
        exact ⟨s0, rfl⟩
      | true =>
        simp only [hie, if_pos rfl] at hrec
        cases hsc : pyOr (dGet ikvs "script/caption") (dGet ikvs "captions") with
        | arr items =>
          simp only [hsc] at hrec
          obtain ⟨item, hmem, hsome⟩ := List.mem_filterMap.mp hrec
          cases item with
          | obj ckvs =>
            have h2 : rec = ⟨ts, pyOr (dGet ckvs "time") (JValue.str ""),
                JValue.str (strip_code_fence (pyStr (pyOr (dGet ckvs "caption")
                  (pyOr (dGet ckvs "content") (JValue.str ""))))),
                pyOr (dGet ckvs "title") (JValue.str "")⟩ := by
              have h3 := hsome
              simp at h3
              exact h3.symm
            rw [h2]
            exact ⟨_, rfl⟩
          | null => exact Option.noConfusion hsome
          | bool b => exact Option.noConfusion hsome
          | num n => exact Option.noConfusion hsome
          | str s2 => exact Option.noConfusion hsome
          | arr xs => exact Option.noConfusion hsome
        | null => simp only [hsc] at hrec; simp at hrec; rw [hrec]; exact ⟨s0, rfl⟩
        | bool b => simp only [hsc] at hrec; simp at hrec; rw [hrec]; exact ⟨s0, rfl⟩
        | num n => simp only [hsc] at hrec; simp at hrec; rw [hrec]; exact ⟨s0, rfl⟩
        | str s2 => simp only [hsc] at hrec; simp at hrec; rw [hrec]; exact ⟨s0, rfl⟩
        | obj o => simp only [hsc] at hrec; simp at hrec; rw [hrec]; exact ⟨s0, rfl⟩
  | null => exact absurd hrec (List.not_mem_nil rec)
  | bool b => exact absurd hrec (List.not_mem_nil rec)
  | num n => exact absurd hrec (List.not_mem_nil rec)
  | arr xs => exact absurd hrec (List.not_mem_nil rec)
  | obj o => exact absurd hrec (List.not_mem_nil rec)

theorem perField_content (ts : JValue) (kv : String × JValue) (l : List Rec)
    (hok : perField ts kv = .ok l) :
    ∀ rec ∈ l, ∃ s : String, rec.content = JValue.str (strip_code_fence s) := by
  intro rec hrec
  obtain ⟨k, v⟩ := kv
  cases v with
  | str s0 =>
    simp only [perField] at hok
    cases hf : extract_fenced_json s0 with
    | none =>
      simp only [hf] at hok
      have h2 : ([] : List Rec) = l := Except.ok.inj hok
      rw [← h2] at hrec
      exact absurd hrec (List.not_mem_nil rec)
    | some ikvs =>
      simp only [hf] at hok
      cases hie : !ikvs.isEmpty with
      | false =>
        simp only [hie, Bool.false_eq_true, if_false] at hok
        simp at hok
        rw [hok] at hrec
        exact absurd hrec (List.not_mem_nil rec)
      | true =>
        simp only [hie, if_pos rfl] at hok
        cases hsc : pyOr (dGet ikvs "script/caption") (dGet ikvs "captions") with
        | arr items =>
          simp only [hsc] at hok
          obtain ⟨item, hmem, hitem⟩ := mapExc_mem_ok _ items l hok rec hrec
          cases item with
          | obj ckvs =>
            have h2 : rec = ⟨ts, pyOr (dGet ckvs "time") (JValue.str ""),
                JValue.str (strip_code_fence (pyStr (pyOr (dGet ckvs "caption")
                  (pyOr (dGet ckvs "content") (JValue.str ""))))),
                pyOr (dGet ckvs "title") (JValue.str "")⟩ := (Except.ok.inj hitem).symm
            rw [h2]
            exact ⟨_, rfl⟩
          | null => exact Except.noConfusion hitem
          | bool b => exact Except.noConfusion hitem
          | num n => exact Except.noConfusion hitem
          | str s2 => exact Except.noConfusion hitem
          | arr xs => exact Except.noConfusion hitem
        | null =>
          simp only [hsc] at hok; simp at hok; rw [hok] at hrec
          exact absurd hrec (List.not_mem_nil rec)
        | bool b =>
          simp only [hsc] at hok; simp at hok; rw [hok] at hrec
          exact absurd hrec (List.not_mem_nil rec)
        | num n =>
          simp only [hsc] at hok; simp at hok; rw [hok] at hrec
          exact absurd hrec (List.not_mem_nil rec)
        | str s2 =>
          simp only [hsc] at hok; simp at hok; rw [hok] at hrec
          exact absurd hrec (List.not_mem_nil rec)
        | obj o =>
          simp only [hsc] at hok; simp at hok; rw [hok] at hrec
          exact absurd hrec (List.not_mem_nil rec)
  | null =>
    have h2 : ([] : List Rec) = l := Except.ok.inj hok
    rw [← h2] at hrec
    exact absurd hrec (List.not_mem_nil rec)
  | bool b =>
    have h2 : ([] : List Rec) = l := Except.ok.inj hok
    rw [← h2] at hrec
    exact absurd hrec (List.not_mem_nil rec)
  | num n =>
    have h2 : ([] : List Rec) = l := Except.ok.inj hok
    rw [← h2] at hrec
    exact absurd hrec (List.not_mem_nil rec)
  | arr xs =>
    have h2 : ([] : List Rec) = l := Except.ok.inj hok
    rw [← h2] at hrec
    exact absurd hrec (List.not_mem_nil rec)
  | obj o =>
    have h2 : ([] : List Rec) = l := Except.ok.inj hok
    rw [← h2] at hrec
    exact absurd hrec (List.not_mem_nil rec)

end GetContext

namespace GetContext

/-- Claim C4 (amended): for entries where no Strategy-A block unpacks an
embedded captions array, every emitted record's content is a string in the
range of `strip_code_fence`; the content may be empty and backtick runs of
the input may recombine into fence delimiters. -/
theorem claim_C4_content_strip_range (e : JValue) (recs : List Rec)
    (hok : extract_from_entry e = .ok recs)
    (hni : entryNoInner e = true) :
    ∀ r ∈ recs, ∃ s : String, r.content = JValue.str (strip_code_fence s) := by
  cases e with
  | obj ekvs =>
    have hd := extract_dispatch ekvs
    cases hA : shapeA ekvs with
    | true =>
      rw [hd.1 hA] at hok
      unfold strategyA at hok
      have hniA : (aBlocks ekvs).all (fun b =>
          match b with
          | JValue.obj kvs => !(innerHit kvs)
          | _ => true) = true := by
        have h1 : (if shapeA ekvs = true then
            (aBlocks ekvs).all (fun b =>
              match b with
              | JValue.obj kvs => !(innerHit kvs)
              | _ => true)
          else true) = true := hni
        rw [hA, if_pos rfl] at h1
        exact h1
      cases hm : mapExc (fun block =>
          (extract_blocks_from_script_caption block).map
            (fun bs => bs.map (fun b =>
              Rec.mk (dGet ekvs "timestamp") b.time b.content b.title))) (aBlocks ekvs) with
      | error e2 =>
        rw [hm] at hok
        exact absurd hok (by simp [Except.map])
      | ok rss =>
        rw [hm] at hok
        have hrecs : recs = rss.flatten := by
          have h2 : Except.ok rss.flatten = Except.ok recs := hok
          exact (Except.ok.inj h2).symm
        intro r hr
        rw [hrecs] at hr
        obtain ⟨bs, hbs, hrbs⟩ := List.mem_flatten.mp hr
        obtain ⟨b, hbmem, hfb⟩ := mapExc_mem_ok _ _ _ hm bs hbs
        cases hext : extract_blocks_from_script_caption b with
        | error e2 =>
          simp only [hext, Except.map] at hfb
          exact Except.noConfusion hfb
        | ok l =>
          simp only [hext, Except.map] at hfb
          have hbs2 : bs = l.map (fun x =>
              Rec.mk (dGet ekvs "timestamp") x.time x.content x.title) :=
            (Except.ok.inj hfb).symm
          cases b with
          | obj kvs =>
            have hbni : innerHit kvs = false := by
              have h3 := List.all_eq_true.mp hniA _ hbmem
              have h4 : (!(innerHit kvs)) = true := h3
              simpa using h4
            rw [extract_blocks_of_not_innerHit kvs hbni] at hext
            have hl : l = [⟨blockTime kvs, JValue.str (blockContent kvs), blockTitle kvs⟩] :=
              (Except.ok.inj hext.symm)
            rw [hbs2, hl] at hrbs
            simp at hrbs
            obtain ⟨s, hs⟩ := blockContent_strip kvs
            rw [hrbs]
            exact ⟨s, by simp [hs]⟩
          | null => exact Except.noConfusion hext
          | bool b2 => exact Except.noConfusion hext
          | num n2 => exact Except.noConfusion hext
          | str s2 => exact Except.noConfusion hext
          | arr xs2 => exact Except.noConfusion hext
    | false =>
      cases hB : shapeB ekvs with
      | true =>
        rw [hd.2.1 hA hB] at hok
        have hrecs : recs = strategyB (dGet ekvs "timestamp") (bResults ekvs) :=
          (Except.ok.inj hok).symm
        intro r hr
        rw [hrecs] at hr
        unfold strategyB at hr
        obtain ⟨lrec, hlr, hrl⟩ := List.mem_flatten.mp hr
        obtain ⟨x, hx, hpx⟩ := List.mem_map.mp hlr
        rw [← hpx] at hrl
        exact perResult_content (dGet ekvs "timestamp") x r hrl
      | false =>
        rw [hd.2.2 hA hB] at hok
        unfold strategyC at hok
        cases hm : mapExc (perField (dGet ekvs "timestamp")) ekvs with
        | error e2 =>
          rw [hm] at hok
          exact absurd hok (by simp [Except.map])
        | ok rss =>
          rw [hm] at hok
          have hrecs : recs = rss.flatten := by
            have h2 : Except.ok rss.flatten = Except.ok recs := hok
            exact (Except.ok.inj h2).symm
          intro r hr
          rw [hrecs] at hr
          obtain ⟨lrec, hlr, hrl⟩ := List.mem_flatten.mp hr
          obtain ⟨kv, hkv, hfkv⟩ := mapExc_mem_ok _ _ _ hm lrec hlr
          exact perField_content (dGet ekvs "timestamp") kv lrec hfkv r hrl
  | null => exact Except.noConfusion hok
  | bool b => exact Except.noConfusion hok
  | num n => exact Except.noConfusion hok
  | str s2 => exact Except.noConfusion hok
  | arr xs => exact Except.noConfusion hok

/-- The C4 counterexample entry: one empty result string and one whose
backtick runs recombine under the fence-stripping substitution. -/
def ekvsC4 : List (String × JValue) :=
  [("results", JValue.arr [JValue.str "", JValue.str "`` `````x"])]

/-- Counterexample to claim C4 as stated: extraction emits a record with
empty content, and a record whose content still contains a triple-backtick
fence delimiter. -/
theorem claim_C4_counterexample :
    extract_from_entry (JValue.obj ekvsC4) =
      .ok [⟨JValue.null, JValue.str "", JValue.str "", JValue.str ""⟩,
           ⟨JValue.null, JValue.str "", JValue.str "````x", JValue.str ""⟩] ∧
    ("" : String).isEmpty = true ∧
    containsTicks "````x".data = true := by
  refine ⟨by decide, by decide, by decide⟩

/-- Witness entry for the amended claim C4. -/
def ekvsC4w : List (String × JValue) := [("results", JValue.arr [JValue.str "hi"])]

/-- Witness for the amended claim C4: the concrete record extracted from a
plain result string has content in the range of `strip_code_fence`. -/
theorem claim_C4_witness :
    ∃ s : String,
      (Rec.mk JValue.null (JValue.str "") (JValue.str "hi") (JValue.str "")).content =
        JValue.str (strip_code_fence s) :=
  claim_C4_content_strip_range (JValue.obj ekvsC4w)
    [Rec.mk JValue.null (JValue.str "") (JValue.str "hi") (JValue.str "")]
    (by decide) (by decide)
    (Rec.mk JValue.null (JValue.str "") (JValue.str "hi") (JValue.str ""))
    (List.mem_singleton.mpr rfl)

end GetContext

namespace GetContext

/-- Specification-side deduplication: keep each record, dropping every later
record whose `(timestamp, time, content)` key is `==`-equal to its. -/
def dedupSpec : List Rec → List Rec
  | [] => []
  | r :: rest => r :: dedupSpec (rest.filter (fun x => !(keyEq (rkey x) (rkey r))))
termination_by l => l.length
decreasing_by
  have := List.length_filter_le (fun x => !(keyEq (rkey x) (rkey r))) rest
  simp only [List.length_cons]
  omega

theorem dedupeGo_spec : ∀ (xs : List Rec) (seen : List (JValue × JValue × JValue)),
    (∀ r ∈ xs, rkeyHashable r = true) →
    dedupeGo seen xs =
      Except.ok (dedupSpec (xs.filter (fun r => !(seen.any (keyEq (rkey r))))))
  | [], seen, _ => by simp [dedupeGo, dedupSpec]
  | r :: rest, seen, hh => by
    have hhr : rkeyHashable r = true := hh r (List.mem_cons_self _ _)
    have hht : ∀ x ∈ rest, rkeyHashable x = true :=
      fun x hx => hh x (List.mem_cons_of_mem _ hx)
    by_cases hmem : seen.any (keyEq (rkey r)) = true
    · rw [dedupeGo, if_pos hhr, if_pos hmem, dedupeGo_spec rest seen hht]
      congr 2
      rw [List.filter_cons]
      simp [hmem]
    · rw [dedupeGo, if_pos hhr, if_neg hmem, dedupeGo_spec rest (rkey r :: seen) hht]
      have hfc : (r :: rest).filter (fun x => !(seen.any (keyEq (rkey x)))) =
          r :: rest.filter (fun x => !(seen.any (keyEq (rkey x)))) := by
        rw [List.filter_cons]
        simp [hmem]
      have hpred : rest.filter (fun x => !((rkey r :: seen).any (keyEq (rkey x)))) =
          (rest.filter (fun x => !(seen.any (keyEq (rkey x))))).filter
            (fun x => !(keyEq (rkey x) (rkey r))) := by
        rw [List.filter_filter]
        apply List.filter_congr
        intro a _
        simp [List.any_cons, Bool.not_or, Bool.and_comm]
      rw [hpred, hfc, dedupSpec]

theorem dedupSpec_sublist : ∀ xs : List Rec, (dedupSpec xs).Sublist xs
  | [] => by rw [dedupSpec]
  | r :: rest => by
    rw [dedupSpec]
    apply List.Sublist.cons₂
    exact (dedupSpec_sublist (rest.filter _)).trans (List.filter_sublist rest)
termination_by xs => xs.length
decreasing_by
  have := List.length_filter_le (fun x => !(keyEq (rkey x) (rkey r))) rest
  simp only [List.length_cons]
  omega

def recC6L : Rec :=
  ⟨JValue.null, JValue.str "", JValue.arr [JValue.num "1"], JValue.str ""⟩

def recC6T : Rec := ⟨JValue.null, JValue.str "", JValue.bool true, JValue.str ""⟩

def recC6N : Rec := ⟨JValue.null, JValue.str "", JValue.num "1", JValue.str ""⟩

/-- Claim C6 counterexample: the dedup step is not the claimed total
first-occurrence filter on structural key triples. A record whose content is
a list (reachable through the inner-captions path) makes `key in seen` raise
`TypeError` instead of returning a list at all, and Python `==` identifies
`True` with `1`, so a record whose structural `(timestamp, time, content)`
triple was never seen before is still removed. -/
theorem claim_C6_counterexample :
    dedupe_and_flatten [recC6L] = Except.error "TypeError" ∧
    dedupe_and_flatten [recC6T, recC6N] = Except.ok [recC6T] ∧
    rkey recC6N ≠ rkey recC6T :=
  ⟨rfl, by decide, by decide⟩

/-- Claim C6 (amended): over record lists all of whose dedup-key components
are hashable (neither a list nor a dict), the flatten/dedup step concatenates
the per-entry lists in order and keeps exactly the first occurrence of each
`(timestamp, time, content)` key under Python `==` - which identifies
numerically equal booleans and numbers - with title playing no role, never
reordering survivors (the result is a sublist of the concatenation); a
record with an unhashable key component instead raises `TypeError`. -/
theorem claim_C6_dedupe_keeps_first (lists : List (List Rec))
    (h : ∀ r ∈ lists.flatten, rkeyHashable r = true) :
    dedupe_and_flatten lists.flatten = Except.ok (dedupSpec lists.flatten) ∧
    (dedupSpec lists.flatten).Sublist lists.flatten := by
  have h2 := dedupeGo_spec lists.flatten [] h
  have h3 : lists.flatten.filter (fun r => !(List.any [] (keyEq (rkey r)))) =
      lists.flatten := by
    apply List.filter_eq_self.mpr
    intro a _
    rfl
  constructor
  · rw [dedupe_and_flatten, h2, h3]
  · exact dedupSpec_sublist lists.flatten

def recC6a : Rec := ⟨JValue.null, JValue.str "0-5s", JValue.str "Hi", JValue.str "A"⟩

def recC6b : Rec := ⟨JValue.null, JValue.str "0-5s", JValue.str "Hi", JValue.str "B"⟩

def recC6c : Rec := ⟨JValue.null, JValue.str "5-9s", JValue.str "Yo", JValue.str "C"⟩

theorem claim_C6_witness :
    (∀ r ∈ ([[recC6a], [recC6b, recC6c]] : List (List Rec)).flatten,
        rkeyHashable r = true) ∧
    (dedupe_and_flatten ([[recC6a], [recC6b, recC6c]] : List (List Rec)).flatten =
        Except.ok (dedupSpec ([[recC6a], [recC6b, recC6c]] : List (List Rec)).flatten) ∧
      (dedupSpec ([[recC6a], [recC6b, recC6c]] : List (List Rec)).flatten).Sublist
        ([[recC6a], [recC6b, recC6c]] : List (List Rec)).flatten) :=
  ⟨by decide, claim_C6_dedupe_keeps_first _ (by decide)⟩

end GetContext

namespace GetContext

/-- The entry one log line contributes, if any: strip, skip blanks, try
`json.loads`, then try the fence salvage. -/
def parsedOf (l : String) : Option JValue :=
  let ls := pyStripS l
  if ls.isEmpty then none
  else
    match json_loads ls with
    | some v => some v
    | none => salvageLine ls

/-- A line that draws a warning: non-blank after stripping, not valid JSON,
and not salvageable through a fenced document. -/
def malformedB (l : String) : Bool :=
  let ls := pyStripS l
  (!ls.isEmpty) && (json_loads ls).isNone && (salvageLine ls).isNone

/-- The claim's own notion of a malformed line: neither valid JSON nor
containing a parseable fenced JSON document (blankness plays no role). -/
def claimMalformed (l : String) : Bool :=
  (json_loads l).isNone && (salvageLine l).isNone

theorem load_entries_eq : ∀ (lines : List String) (i : Nat),
    (load_log_lines lines i).1 = lines.filterMap parsedOf
  | [], _ => rfl
  | l :: rest, i => by
    cases he : (pyStripS l).isEmpty with
    | true =>
      simp [load_log_lines, parsedOf, he, List.filterMap_cons, load_entries_eq rest (i + 1)]
    | false =>
      cases hj : json_loads (pyStripS l) with
      | some v =>
        simp [load_log_lines, parsedOf, he, hj, List.filterMap_cons,
          load_entries_eq rest (i + 1)]
      | none =>
        cases hs : salvageLine (pyStripS l) with
        | some v =>
          simp [load_log_lines, parsedOf, he, hj, hs, List.filterMap_cons,
            load_entries_eq rest (i + 1)]
        | none =>
          simp [load_log_lines, parsedOf, he, hj, hs, List.filterMap_cons,
            load_entries_eq rest (i + 1)]

theorem load_warnings_count : ∀ (lines : List String) (i : Nat),
    (load_log_lines lines i).2.length = lines.countP malformedB
  | [], _ => rfl
  | l :: rest, i => by
    cases he : (pyStripS l).isEmpty with
    | true =>
      simp [load_log_lines, malformedB, he, List.countP_cons,
        load_warnings_count rest (i + 1)]
    | false =>
      cases hj : json_loads (pyStripS l) with
      | some v =>
        simp [load_log_lines, malformedB, he, hj, List.countP_cons,
          load_warnings_count rest (i + 1)]
      | none =>
        cases hs : salvageLine (pyStripS l) with
        | some v =>
          simp [load_log_lines, malformedB, he, hj, hs, List.countP_cons,
            load_warnings_count rest (i + 1)]
        | none =>
          simp [load_log_lines, malformedB, he, hj, hs, List.countP_cons,
            load_warnings_count rest (i + 1)]

theorem load_warnings_mem : ∀ (lines : List String) (i : Nat) (n : Nat),
    n ∈ (load_log_lines lines i).2 →
    ∃ j, ∃ hj : j < lines.length, n = i + j ∧ malformedB (lines.get ⟨j, hj⟩) = true
  | [], _, n, h => absurd h (List.not_mem_nil n)
  | l :: rest, i, n, h => by
    cases he : (pyStripS l).isEmpty with
    | true =>
      rw [load_log_lines] at h
      simp only [he, if_pos rfl] at h
      obtain ⟨j, hj, hn, hm⟩ := load_warnings_mem rest (i + 1) n h
      exact ⟨j + 1, by simpa using Nat.succ_lt_succ hj, by omega, hm⟩
    | false =>
      rw [load_log_lines] at h
      simp only [he, Bool.false_eq_true, if_false] at h
      cases hj : json_loads (pyStripS l) with
      | some v =>
        rw [hj] at h
        simp only [] at h
        obtain ⟨j, hjl, hn, hm⟩ := load_warnings_mem rest (i + 1) n h
        exact ⟨j + 1, by simpa using Nat.succ_lt_succ hjl, by omega, hm⟩
      | none =>
        rw [hj] at h
        cases hs : salvageLine (pyStripS l) with
        | some v =>
          rw [hs] at h
          simp only [] at h
          obtain ⟨j, hjl, hn, hm⟩ := load_warnings_mem rest (i + 1) n h
          exact ⟨j + 1, by simpa using Nat.succ_lt_succ hjl, by omega, hm⟩
        | none =>
          rw [hs] at h
          simp only [] at h
          cases h with
          | head =>
            refine ⟨0, by simp, by omega, ?_⟩
            simp [malformedB, he, hj, hs]
          | tail _ h2 =>
            obtain ⟨j, hjl, hn, hm⟩ := load_warnings_mem rest (i + 1) n h2
            exact ⟨j + 1, by simpa using Nat.succ_lt_succ hjl, by omega, hm⟩

theorem parsedOf_none_of_malformed (l : String) (h : malformedB l = true) :
    parsedOf l = none := by
  unfold malformedB at h
  unfold parsedOf
  cases he : (pyStripS l).isEmpty with
  | true => simp [he]
  | false =>
    rw [Bool.and_assoc] at h
    simp only [he, Bool.not_false, Bool.true_and, Bool.and_eq_true, Option.isNone_iff_eq_none]
      at h
    simp [he, h.1, h.2]

theorem filterMap_drop_none {A B : Type} (f : A → Option B) (p : A → Bool)
    (h : ∀ x, p x = false → f x = none) :
    ∀ l : List A, (l.filter p).filterMap f = l.filterMap f
  | [] => rfl
  | x :: xs => by
    rw [List.filter_cons]
    cases hp : p x with
    | true => simp [List.filterMap_cons, filterMap_drop_none f p h xs]
    | false => simp [List.filterMap_cons, h x hp, filterMap_drop_none f p h xs]

/-- Claim C7 (amended): removing the non-blank malformed lines leaves the
parsed entry sequence unchanged; the reader emits exactly one warning per
non-blank malformed line, each carrying that line's 1-based number; blank
(whitespace-only) lines are skipped silently with no warning. -/
theorem claim_C7_reader_resilience (lines : List String) :
    (load_log_lines (lines.filter (fun l => !(malformedB l))) 1).1 =
      (load_log_lines lines 1).1
    ∧ (load_log_lines lines 1).2.length = lines.countP malformedB
    ∧ ∀ n ∈ (load_log_lines lines 1).2, ∃ hj : n - 1 < lines.length,
        n ≥ 1 ∧ malformedB (lines.get ⟨n - 1, hj⟩) = true := by
  refine ⟨?_, load_warnings_count lines 1, ?_⟩
  · rw [load_entries_eq, load_entries_eq]
    apply filterMap_drop_none
    intro x hx
    apply parsedOf_none_of_malformed
    simpa using hx
  · intro n hn
    obtain ⟨j, hj, hn1, hm⟩ := load_warnings_mem lines 1 n hn
    have hj2 : n - 1 < lines.length := by omega
    refine ⟨hj2, by omega, ?_⟩
    have : n - 1 = j := by omega
    simp only [this]
    exact hm

/-- Counterexample to claim C7 as stated: a whitespace-only line is neither
valid JSON nor holds a fenced document, so by the claim it is malformed and
owed a warning, yet the reader skips it silently (one entry, no warnings). -/
theorem claim_C7_counterexample :
    (load_log_lines ["\x7b\"a\": 1\x7d", " "] 1).2.length = 0 ∧
    (["\x7b\"a\": 1\x7d", " "].countP claimMalformed) = 1 ∧
    (load_log_lines ["\x7b\"a\": 1\x7d", " "] 1).1.length = 1 := by
  refine ⟨by decide, by decide, by decide⟩

end GetContext

namespace GetContext

theorem hexVal_hexDigitChar (d : Nat) (h : d < 16) : hexVal (hexDigitChar d) = some d := by
  interval_cases d <;> decide

theorem stringMk_data (s : String) : String.mk s.data = s := by cases s; rfl

/-- The decoder inverts the `json.dumps` escape of each character list. -/
theorem parseStrBody_escape : ∀ (cs rest : List Char),
    parseStrBody ((cs.map escapeChar).flatten ++ '\"' :: rest) = some (cs, rest)
  | [], rest => by
    rw [parseStrBody.eq_def]
    simp
  | c :: cs, rest => by
    have ih := parseStrBody_escape cs rest
    simp only [List.map_cons, List.flatten_cons, List.append_assoc]
    by_cases h1 : c = '\"'
    · subst h1
      have he : escapeChar '\"' = ['\\', '\"'] := by decide
      rw [he]
      simp only [List.cons_append, List.nil_append]
      rw [parseStrBody.eq_def]
      simp +decide [ih]
    ·
      by_cases h2 : c = '\\'
      · subst h2
        have he : escapeChar '\\' = ['\\', '\\'] := by decide
        rw [he]
        simp only [List.cons_append, List.nil_append]
        rw [parseStrBody.eq_def]
        simp +decide [ih]
      ·
        by_cases h3 : c = '\n'
        · subst h3
          have he : escapeChar '\n' = ['\\', 'n'] := by decide
          rw [he]
          simp only [List.cons_append, List.nil_append]
          rw [parseStrBody.eq_def]
          simp +decide [ih]
        ·
          by_cases h4 : c = '\t'
          · subst h4
            have he : escapeChar '\t' = ['\\', 't'] := by decide
            rw [he]
            simp only [List.cons_append, List.nil_append]
            rw [parseStrBody.eq_def]
            simp +decide [ih]
          ·
            by_cases h5 : c = '\r'
            · subst h5
              have he : escapeChar '\r' = ['\\', 'r'] := by decide
              rw [he]
              simp only [List.cons_append, List.nil_append]
              rw [parseStrBody.eq_def]
              simp +decide [ih]
            ·
              by_cases h6 : c = '\x08'
              · subst h6
                have he : escapeChar '\x08' = ['\\', 'b'] := by decide
                rw [he]
                simp only [List.cons_append, List.nil_append]
                rw [parseStrBody.eq_def]
                simp +decide [ih]
              ·
                by_cases h7 : c = '\x0c'
                · subst h7
                  have he : escapeChar '\x0c' = ['\\', 'f'] := by decide
                  rw [he]
                  simp only [List.cons_append, List.nil_append]
                  rw [parseStrBody.eq_def]
                  simp +decide [ih]
                ·
                  by_cases h8 : c.toNat < 32
                  · have he : escapeChar c =
                        ['\\', 'u', '0', '0', hexDigitChar (c.toNat / 16), hexDigitChar (c.toNat % 16)] := by
                      unfold escapeChar
                      simp [h1, h2, h3, h4, h5, h6, h7, h8]
                    rw [he]
                    simp only [List.cons_append, List.nil_append]
                    rw [parseStrBody.eq_def]
                    have hv2 : hexVal (hexDigitChar (c.toNat / 16)) = some (c.toNat / 16) :=
                      hexVal_hexDigitChar _ (by omega)
                    have hv3 : hexVal (hexDigitChar (c.toNat % 16)) = some (c.toNat % 16) :=
                      hexVal_hexDigitChar _ (by omega)
                    have hv0 : hexVal '0' = some 0 := by decide
                    simp +decide [hv0, hv2, hv3, ih]
                    rw [Nat.div_add_mod, Char.ofNat_toNat]
                  · have he : escapeChar c = [c] := by
                      unfold escapeChar
                      simp [h1, h2, h3, h4, h5, h6, h7, h8]
                    rw [he]
                    simp only [List.cons_append, List.nil_append]
                    rw [parseStrBody.eq_def]
                    simp [h1, h2, h8, ih]

end GetContext

namespace GetContext

theorem dropWhile_wsPre : ∀ (pre l : List Char), pre.all isJsonWs = true →
    (pre ++ l).dropWhile isJsonWs = l.dropWhile isJsonWs
  | [], _, _ => rfl
  | a :: pre, l, h => by
    rw [List.all_cons, Bool.and_eq_true] at h
    rw [List.cons_append, List.dropWhile_cons, if_pos h.1]
    exact dropWhile_wsPre pre l h.2

theorem dropWhile_not_ws (c : Char) (l : List Char) (hc : isJsonWs c = false) :
    (c :: l).dropWhile isJsonWs = c :: l := by
  rw [List.dropWhile_cons, if_neg (by simp [hc])]

theorem replicate_space_all_ws (n : Nat) : (List.replicate n ' ').all isJsonWs = true := by
  induction n with
  | zero => rfl
  | succ m ih => rw [List.replicate_succ, List.all_cons, ih]; rfl

theorem parseVal_wsPre : ∀ (g : Nat) (pre cs : List Char), pre.all isJsonWs = true →
    parseVal g (pre ++ cs) = parseVal g cs
  | 0, _, _, _ => rfl
  | Nat.succ f, pre, cs, h => by
    simp only [parseVal]
    rw [dropWhile_wsPre pre cs h]

theorem parseElems_wsPre (g : Nat) (pre cs : List Char) (acc : List JValue)
    (h : pre.all isJsonWs = true) :
    parseElems g (pre ++ cs) acc = parseElems g cs acc := by
  cases g with
  | zero => rfl
  | succ f => simp only [parseElems]; rw [parseVal_wsPre f pre cs h]

theorem parseItems_wsPre (g : Nat) (pre cs : List Char) (acc : List (String × JValue))
    (h : pre.all isJsonWs = true) :
    parseItems g (pre ++ cs) acc = parseItems g cs acc := by
  cases g with
  | zero => rfl
  | succ f => simp only [parseItems]; rw [dropWhile_wsPre pre cs h]

/-- Field values of a serialized record: `null` or a string. -/
def isFieldVal (v : JValue) : Prop := v = JValue.null ∨ ∃ s, v = JValue.str s

theorem parseVal_fieldVal (v : JValue) (hv : isFieldVal v) (f lvl : Nat) (rest : List Char) :
    parseVal (f + 1) (dumpsI lvl v ++ rest) = some (v, rest) := by
  cases hv with
  | inl h =>
    subst h
    simp only [dumpsI]
    simp +decide [parseVal]
  | inr h =>
    obtain ⟨s, rfl⟩ := h
    simp only [dumpsI, renderStr]
    simp only [parseVal, List.cons_append]
    rw [dropWhile_not_ws '"' _ (by decide)]
    simp only [if_pos rfl]
    have he : (List.map escapeChar s.data).flatten ++ '"' :: rest =
        ((List.map escapeChar s.data).flatten ++ ['"']) ++ rest := by
      simp
    rw [List.append_assoc]
    simp only [List.cons_append, List.nil_append]
    rw [parseStrBody_escape s.data rest]
    simp [stringMk_data]

end GetContext

namespace GetContext

def insertAll (acc : List (String × JValue)) (fields : List (String × JValue)) :
    List (String × JValue) :=
  fields.foldl (fun a kv => insertKV a kv.1 kv.2) acc

/-- Text following a record object's first field in the indent-2 rendering:
the remaining fields of the object at level 2 and the closing brace at
level 1. -/
def itemsTail : List (String × JValue) → List Char → List Char
  | [], rest => '\n' :: indentN 1 ++ rbraceC :: rest
  | (k, v) :: t, rest =>
    ',' :: '\n' :: indentN 2 ++ renderStr k ++ ':' :: ' ' :: dumpsI 2 v ++ itemsTail t rest

theorem itemsText_shape : ∀ (t : List (String × JValue)) (k : String) (v : JValue)
    (rest : List Char),
    dumpsIItems 2 ((k, v) :: t) ++ '\n' :: indentN 1 ++ rbraceC :: rest =
      indentN 2 ++ renderStr k ++ ':' :: ' ' :: dumpsI 2 v ++ itemsTail t rest
  | [], k, v, rest => by
    simp only [dumpsIItems, itemsTail, List.append_assoc, List.cons_append, List.nil_append]
  | (k2, v2) :: t, k, v, rest => by
    have ih := itemsText_shape t k2 v2 rest
    simp only [dumpsIItems, itemsTail, List.append_assoc, List.cons_append, List.nil_append]
      at ih ⊢
    rw [ih]

/-- Text following an array element in the indent-2 rendering at top level:
the remaining elements at level 1 and the closing bracket at level 0. -/
def elemsTail : List JValue → List Char → List Char
  | [], rest => '\n' :: ']' :: rest
  | v :: t, rest => ',' :: '\n' :: indentN 1 ++ dumpsI 1 v ++ elemsTail t rest

theorem elemsText_shape : ∀ (t : List JValue) (v : JValue) (rest : List Char),
    dumpsIElems 1 (v :: t) ++ '\n' :: ']' :: rest =
      indentN 1 ++ dumpsI 1 v ++ elemsTail t rest
  | [], v, rest => by
    simp only [dumpsIElems, elemsTail, List.append_assoc, List.cons_append, List.nil_append]
  | w :: t, v, rest => by
    have ih := elemsText_shape t w rest
    simp only [dumpsIElems, elemsTail, List.append_assoc, List.cons_append, List.nil_append]
      at ih ⊢
    rw [ih]

theorem parseVal_ws_cons (g : Nat) (a : Char) (cs : List Char) (h : isJsonWs a = true) :
    parseVal g (a :: cs) = parseVal g cs := by
  have h2 := parseVal_wsPre g [a] cs (by simp [h])
  simpa using h2

theorem parseItems_ws_cons (g : Nat) (a : Char) (cs : List Char)
    (acc : List (String × JValue)) (h : isJsonWs a = true) :
    parseItems g (a :: cs) acc = parseItems g cs acc := by
  have h2 := parseItems_wsPre g [a] cs acc (by simp [h])
  simpa using h2

theorem parseElems_ws_cons (g : Nat) (a : Char) (cs : List Char)
    (acc : List JValue) (h : isJsonWs a = true) :
    parseElems g (a :: cs) acc = parseElems g cs acc := by
  have h2 := parseElems_wsPre g [a] cs acc (by simp [h])
  simpa using h2

theorem parseItems_ws_rep (g : Nat) (n : Nat) (cs : List Char)
    (acc : List (String × JValue)) :
    parseItems g (List.replicate n ' ' ++ cs) acc = parseItems g cs acc :=
  parseItems_wsPre g _ cs acc (replicate_space_all_ws n)

theorem parseVal_ws_rep (g : Nat) (n : Nat) (cs : List Char) :
    parseVal g (List.replicate n ' ' ++ cs) = parseVal g cs :=
  parseVal_wsPre g _ cs (replicate_space_all_ws n)

theorem parseElems_ws_rep (g : Nat) (n : Nat) (cs : List Char) (acc : List JValue) :
    parseElems g (List.replicate n ' ' ++ cs) acc = parseElems g cs acc :=
  parseElems_wsPre g _ cs acc (replicate_space_all_ws n)

theorem parseItems_render : ∀ (t : List (String × JValue)) (k : String) (v : JValue)
    (f : Nat) (acc : List (String × JValue)) (rest : List Char),
    isFieldVal v → (∀ kv ∈ t, isFieldVal kv.2) →
    parseItems (f + 2 * t.length + 2)
        (renderStr k ++ ':' :: ' ' :: dumpsI 2 v ++ itemsTail t rest) acc =
      some (.obj (insertAll acc ((k, v) :: t)), rest)
  | [], k, v, f, acc, rest, hv, _ => by
    have hfuel : f + 2 * List.length ([] : List (String × JValue)) + 2 =
        Nat.succ (f + 1) := by simp
    rw [hfuel]
    simp only [parseItems, renderStr, List.cons_append, List.append_assoc, List.nil_append]
    rw [dropWhile_not_ws '"' _ (by decide)]
    simp only [if_pos rfl]
    rw [parseStrBody_escape k.data]
    simp only []
    rw [dropWhile_not_ws ':' _ (by decide)]
    simp only [if_pos rfl]
    rw [parseVal_ws_cons (f + 1) ' ' _ (by decide)]
    rw [parseVal_fieldVal v hv f 2 (itemsTail [] rest)]
    simp only [itemsTail, indentN]
    rw [dropWhile_wsPre ('\n' :: List.replicate 2 ' ') _ (by decide)]
    rw [dropWhile_not_ws rbraceC _ (by decide)]
    simp only [if_neg (by decide : ¬rbraceC = ','), if_pos rfl]
    rw [stringMk_data]
    rfl
  | (k2, v2) :: t, k, v, f, acc, rest, hv, ht => by
    have hfuel : f + 2 * List.length ((k2, v2) :: t) + 2 =
        Nat.succ (f + 2 * t.length + 3) := by
      simp only [List.length_cons]
      omega
    rw [hfuel]
    generalize hH : f + 2 * t.length + 3 = H
    simp only [parseItems, renderStr, List.cons_append, List.append_assoc, List.nil_append]
    rw [dropWhile_not_ws '"' _ (by decide)]
    simp only [if_pos rfl]
    rw [parseStrBody_escape k.data]
    simp only []
    rw [dropWhile_not_ws ':' _ (by decide)]
    simp only [if_pos rfl]
    rw [parseVal_ws_cons H ' ' _ (by decide)]
    have hPV : ∀ R : List Char, parseVal H (dumpsI 2 v ++ R) = some (v, R) := by
      intro R
      rw [← hH]
      exact parseVal_fieldVal v hv (f + 2 * t.length + 2) 2 R
    rw [hPV]
    simp only [itemsTail, indentN, List.cons_append, List.append_assoc]
    rw [dropWhile_not_ws ',' _ (by decide)]
    simp only [if_pos rfl]
    rw [parseItems_ws_cons H '\n' _ _ (by decide)]
    rw [parseItems_ws_rep H (2 * 2) _ _]
    have hkv2 : isFieldVal v2 := ht (k2, v2) (List.mem_cons_self _ _)
    have ht2 : ∀ kv ∈ t, isFieldVal kv.2 := fun kv hkv => ht kv (List.mem_cons_of_mem _ hkv)
    have hmain := parseItems_render t k2 v2 (f + 1) (insertKV acc (String.mk k.data) v) rest
      hkv2 ht2
    have hfu2 : (f + 1) + 2 * t.length + 2 = H := by omega
    rw [hfu2] at hmain
    simp only [List.cons_append, List.append_assoc] at hmain
    rw [hmain]
    rw [stringMk_data]
    rfl

theorem dropWhile_ws_cons (a : Char) (cs : List Char) (h : isJsonWs a = true) :
    (a :: cs).dropWhile isJsonWs = cs.dropWhile isJsonWs := by
  rw [List.dropWhile_cons, if_pos (by simp [h])]

theorem dropWhile_ws_rep (n : Nat) (cs : List Char) :
    (List.replicate n ' ' ++ cs).dropWhile isJsonWs = cs.dropWhile isJsonWs :=
  dropWhile_wsPre _ cs (replicate_space_all_ws n)

/-- Parsing the indent-2 rendering of a level-1 object whose field values are
null or strings yields the object with duplicate keys folded left-to-right. -/
theorem parseVal_render_obj : ∀ (fields : List (String × JValue)) (f : Nat) (rest : List Char),
    (∀ kv ∈ fields, isFieldVal kv.2) →
    parseVal (f + 2 * fields.length + 1) (dumpsI 1 (.obj fields) ++ rest) =
      some (.obj (insertAll [] fields), rest)
  | [], f, rest, _ => by
    have hfuel : f + 2 * List.length ([] : List (String × JValue)) + 1 = Nat.succ f := by
      simp
    rw [hfuel]
    simp only [dumpsI, List.cons_append, List.nil_append]
    simp only [parseVal]
    rw [dropWhile_not_ws lbraceC _ (by decide)]
    simp only [if_neg (by decide : ¬lbraceC = '"'), if_pos rfl]
    rw [dropWhile_not_ws rbraceC _ (by decide)]
    simp only [if_pos rfl]
    rfl
  | (k, v) :: t, f, rest, hf => by
    have hfuel : f + 2 * List.length ((k, v) :: t) + 1 = Nat.succ (f + 2 * t.length + 2) := by
      simp only [List.length_cons]
      omega
    rw [hfuel]
    generalize hH : f + 2 * t.length + 2 = H
    have h1 := itemsText_shape t k v rest
    have hrender : dumpsI 1 (JValue.obj ((k, v) :: t)) ++ rest =
        lbraceC :: '\n' ::
          (indentN 2 ++ (renderStr k ++ ':' :: ' ' :: dumpsI 2 v ++ itemsTail t rest)) := by
      simp only [dumpsI, List.cons_append, List.append_assoc, List.nil_append] at h1 ⊢
      rw [show (1 + 1) = 2 from rfl, h1]
    rw [hrender]
    simp only [parseVal]
    rw [dropWhile_not_ws lbraceC _ (by decide)]
    simp only [if_neg (by decide : ¬lbraceC = '"'), if_pos rfl]
    rw [dropWhile_ws_cons '\n' _ (by decide), indentN, dropWhile_ws_rep]
    simp only [renderStr, List.cons_append, List.append_assoc, List.nil_append]
    rw [dropWhile_not_ws '"' _ (by decide)]
    simp only [if_neg (by decide : ¬ '"' = rbraceC)]
    have hmain := parseItems_render t k v f [] rest (hf (k, v) (List.mem_cons_self _ _))
      (fun kv hkv => hf kv (List.mem_cons_of_mem _ hkv))
    rw [hH] at hmain
    simp only [renderStr, List.cons_append, List.append_assoc, List.nil_append] at hmain
    rw [hmain]
    simp only [if_true]

/-- Parsing the element list of the top-level indent-2 array rendering:
every element parses by the supplied hypothesis, elements are separated by
",\n" plus level-1 indentation, and the list closes with "\n]". -/
theorem parseElems_render : ∀ (t : List JValue) (v : JValue) (f : Nat) (acc : List JValue)
    (rest : List Char),
    (∀ x ∈ v :: t, ∀ (f2 : Nat) (r2 : List Char),
      parseVal (f2 + 9) (dumpsI 1 x ++ r2) = some (x, r2)) →
    parseElems (f + 10 * t.length + 10) ('\n' :: indentN 1 ++ dumpsI 1 v ++ elemsTail t rest)
        acc =
      some (.arr (acc ++ v :: t), rest)
  | [], v, f, acc, rest, hx => by
    have hfuel : f + 10 * List.length ([] : List JValue) + 10 =
        Nat.succ (f + 9) := by simp
    rw [hfuel]
    generalize hG : f + 9 = G
    simp only [parseElems]
    simp only [List.append_assoc]
    rw [parseVal_wsPre G ('\n' :: indentN 1) _
      (by simp only [indentN, List.all_cons, replicate_space_all_ws]; decide)]
    have hpv := hx v (List.mem_cons_self _ _) f (elemsTail [] rest)
    rw [hG] at hpv
    rw [hpv]
    simp only [elemsTail]
    rw [dropWhile_ws_cons '\n' _ (by decide)]
    rw [dropWhile_not_ws ']' _ (by decide)]
    rfl
  | w :: t, v, f, acc, rest, hx => by
    have hfuel : f + 10 * List.length (w :: t) + 10 =
        Nat.succ (f + 10 * t.length + 19) := by
      simp only [List.length_cons]
      omega
    rw [hfuel]
    generalize hG : f + 10 * t.length + 19 = G
    simp only [parseElems]
    simp only [List.append_assoc]
    rw [parseVal_wsPre G ('\n' :: indentN 1) _
      (by simp only [indentN, List.all_cons, replicate_space_all_ws]; decide)]
    have hpv := hx v (List.mem_cons_self _ _) (f + 10 * t.length + 10) (elemsTail (w :: t) rest)
    have hf9 : f + 10 * t.length + 10 + 9 = G := by omega
    rw [hf9] at hpv
    rw [hpv]
    simp only [elemsTail, List.cons_append, List.append_assoc]
    rw [dropWhile_not_ws ',' _ (by decide)]
    have hmain := parseElems_render t w (f + 9) (acc ++ [v]) rest
      (fun x hxm => hx x (List.mem_cons_of_mem _ hxm))
    have hfu : f + 9 + 10 * t.length + 10 = G := by omega
    rw [hfu] at hmain
    simp only [List.cons_append, List.append_assoc, List.nil_append] at hmain
    show parseElems G ('\n' :: (indentN 1 ++ (dumpsI 1 w ++ elemsTail t rest))) (acc ++ [v]) =
      some (JValue.arr (acc ++ v :: w :: t), rest)
    rw [hmain]

/-- Folding the four record fields into an empty dict keeps them verbatim:
the keys are pairwise distinct. -/
theorem insertAll_rec (ts t c ti : JValue) :
    insertAll [] [("timestamp", ts), ("time", t), ("content", c), ("title", ti)] =
      [("timestamp", ts), ("time", t), ("content", c), ("title", ti)] := by
  simp only [insertAll, List.foldl]
  simp +decide [insertKV]

/-- Reading back the serialized object of a CaptionRecord restores it. -/
theorem crOfJ_recJ (cr : CaptionRecord) :
    crOfJ (recJ (CaptionRecord.toRec cr)) = some cr := by
  obtain ⟨ts, t, ti, c⟩ := cr
  cases ts with
  | none => rfl
  | some s => rfl

/-- The serialized record object of a CaptionRecord parses back from its
indent-2 rendering with nine units of spare fuel. -/
theorem parseVal_rec (cr : CaptionRecord) (f : Nat) (rest : List Char) :
    parseVal (f + 9) (dumpsI 1 (recJ (CaptionRecord.toRec cr)) ++ rest) =
      some (recJ (CaptionRecord.toRec cr), rest) := by
  obtain ⟨ts, t, ti, c⟩ := cr
  have main : ∀ (v0 : JValue), isFieldVal v0 →
      parseVal (f + 9) (dumpsI 1 (JValue.obj [("timestamp", v0), ("time", JValue.str t),
          ("content", JValue.str c), ("title", JValue.str ti)]) ++ rest) =
        some (JValue.obj [("timestamp", v0), ("time", JValue.str t),
          ("content", JValue.str c), ("title", JValue.str ti)], rest) := by
    intro v0 hv0
    have hfv : ∀ kv ∈ [("timestamp", v0), ("time", JValue.str t),
        ("content", JValue.str c), ("title", JValue.str ti)], isFieldVal kv.2 := by
      intro kv hkv
      simp only [List.mem_cons, List.not_mem_nil, or_false] at hkv
      rcases hkv with h | h | h | h <;> subst h
      · exact hv0
      · exact Or.inr ⟨t, rfl⟩
      · exact Or.inr ⟨c, rfl⟩
      · exact Or.inr ⟨ti, rfl⟩
    have h := parseVal_render_obj _ f rest hfv
    have hn : f + 2 * ([("timestamp", v0), ("time", JValue.str t),
        ("content", JValue.str c), ("title", JValue.str ti)]).length + 1 = f + 9 := by
      simp only [List.length_cons, List.length_nil]
    rw [hn, insertAll_rec] at h
    exact h
  cases ts with
  | none => exact main JValue.null (Or.inl rfl)
  | some s => exact main (JValue.str s) (Or.inr ⟨s, rfl⟩)

/-- The indent-2 rendering of a serialized record starts with the opening
brace: it is nonempty. -/
theorem dumpsI_recJ_head (r : Rec) :
    dumpsI 1 (recJ r) = lbraceC :: '\n' ::
      (dumpsIItems 2 [("timestamp", r.timestamp), ("time", r.time),
        ("content", r.content), ("title", r.title)] ++
        '\n' :: indentN 1 ++ [rbraceC]) := by
  simp only [recJ, dumpsI, List.cons_append, List.append_assoc]

theorem dumpsI_recJ_len (r : Rec) : 1 ≤ (dumpsI 1 (recJ r)).length := by
  rw [dumpsI_recJ_head]
  simp only [List.length_cons]
  omega

/-- Reading back a list of serialized records restores the list. -/
theorem mapOpt_crOfJ : ∀ (crs : List CaptionRecord),
    mapOpt crOfJ ((crs.map CaptionRecord.toRec).map recJ) = some crs
  | [] => rfl
  | cr :: crs => by
    simp only [List.map_cons, mapOpt, crOfJ_recJ, mapOpt_crOfJ crs]

/-- Length lower bound for the tail rendering of the remaining elements. -/
theorem elemsTail_len : ∀ (t : List JValue) (rest : List Char),
    (∀ x ∈ t, 1 ≤ (dumpsI 1 x).length) →
    5 * t.length + 2 + rest.length ≤ (elemsTail t rest).length
  | [], rest, _ => by
    simp only [elemsTail, List.length_cons, List.length_nil]
    omega
  | v :: t, rest, h => by
    have ih := elemsTail_len t rest (fun x hx => h x (List.mem_cons_of_mem _ hx))
    have hv := h v (List.mem_cons_self _ _)
    simp only [elemsTail, indentN, List.length_cons, List.length_append,
      List.length_replicate]
    omega

/-- The indent-2 rendering of a nonempty array whose elements parse back with
nine units of spare fuel and render nonempty and non-whitespace-initial is
accepted by `json.loads` and yields the array. -/
theorem json_loads_arr (x : JValue) (t : List JValue)
    (hx : ∀ y ∈ x :: t, ∀ (f2 : Nat) (r2 : List Char),
      parseVal (f2 + 9) (dumpsI 1 y ++ r2) = some (y, r2))
    (hlen : ∀ y ∈ x :: t, 1 ≤ (dumpsI 1 y).length)
    (hhead : ∃ d l, dumpsI 1 x = d :: l ∧ isJsonWs d = false ∧ d ≠ ']') :
    json_loads (String.mk (dumpsI 0 (.arr (x :: t)))) = some (.arr (x :: t)) := by
  obtain ⟨d, l, hdx, hdw, hdne⟩ := hhead
  have hT : dumpsI 0 (JValue.arr (x :: t)) =
      '[' :: '\n' :: (indentN 1 ++ (dumpsI 1 x ++ elemsTail t [])) := by
    simp only [dumpsI]
    rw [show indentN 0 = ([] : List Char) from rfl]
    have h1 := elemsText_shape t x []
    simp only [List.cons_append, List.append_assoc, List.nil_append] at h1 ⊢
    rw [h1]
  have hlb : 5 * t.length + 7 ≤ (dumpsI 0 (JValue.arr (x :: t))).length := by
    rw [hT]
    have h2 := elemsTail_len t [] (fun y hy => hlen y (List.mem_cons_of_mem _ hy))
    have h3 := hlen x (List.mem_cons_self _ _)
    simp only [List.length_cons, List.length_append, indentN, List.length_replicate,
      List.length_nil] at h2 ⊢
    omega
  have hdata : (String.mk (dumpsI 0 (JValue.arr (x :: t)))).data =
      dumpsI 0 (JValue.arr (x :: t)) := rfl
  have hslen : (String.mk (dumpsI 0 (JValue.arr (x :: t)))).length =
      (dumpsI 0 (JValue.arr (x :: t))).length := rfl
  simp only [json_loads, hdata, hslen]
  obtain ⟨f, hf⟩ : ∃ f, 2 * (dumpsI 0 (JValue.arr (x :: t))).length + 2 =
      Nat.succ (f + 10 * t.length + 10) :=
    ⟨2 * (dumpsI 0 (JValue.arr (x :: t))).length + 2 - (10 * t.length + 11), by omega⟩
  rw [hf]
  generalize hG : f + 10 * t.length + 10 = G
  rw [hT]
  simp only [parseVal]
  rw [dropWhile_not_ws '[' _ (by decide)]
  simp only [if_neg (by decide : ¬ '[' = '"'), if_neg (by decide : ¬ '[' = lbraceC),
    if_pos rfl]
  rw [dropWhile_ws_cons '\n' _ (by decide), indentN, dropWhile_ws_rep]
  rw [hdx]
  simp only [List.cons_append]
  rw [dropWhile_not_ws d _ hdw]
  simp only [if_true]
  rw [if_neg hdne]
  have hmain := parseElems_render t x f [] [] hx
  rw [hG] at hmain
  simp only [List.append_assoc, List.nil_append] at hmain
  rw [parseElems_wsPre G ('\n' :: indentN 1) _ []
    (by simp only [indentN, List.all_cons, replicate_space_all_ws]; decide)] at hmain
  rw [hdx] at hmain
  simp only [List.cons_append] at hmain
  rw [hmain]
  rfl

/-- The exporter's JSON text parses back to the array of serialized records. -/
theorem json_loads_roundtrip : ∀ (crs : List CaptionRecord),
    json_loads (write_json_text (crs.map CaptionRecord.toRec)) =
      some (.arr ((crs.map CaptionRecord.toRec).map recJ))
  | [] => rfl
  | cr :: crs => by
    simp only [List.map_cons, write_json_text]
    refine json_loads_arr _ _ ?_ ?_ ?_
    · intro y hy f2 r2
      simp only [List.mem_cons, List.mem_map] at hy
      rcases hy with h | ⟨r, ⟨cr2, _, hr⟩, hy⟩
      · subst h
        exact parseVal_rec cr f2 r2
      · subst hr
        subst hy
        exact parseVal_rec cr2 f2 r2
    · intro y hy
      simp only [List.mem_cons, List.mem_map] at hy
      rcases hy with h | ⟨r, ⟨cr2, _, hr⟩, hy⟩
      · subst h
        exact dumpsI_recJ_len _
      · subst hr
        subst hy
        exact dumpsI_recJ_len _
    · exact ⟨lbraceC, _, dumpsI_recJ_head _, by decide, by decide⟩

/-- Claim C8: for every sequence of CaptionRecord, serializing it with the
JSON exporter (`write_json`: `json.dumps(items, ensure_ascii=False, indent=2)`
over the four-field record objects) and parsing the produced JSON text back
with `json.loads` yields an identical ordered sequence of records - same
length, same field values per record, same order. -/
theorem claim_C8_round_trip (crs : List CaptionRecord) :
    (json_loads (write_json_text (crs.map CaptionRecord.toRec))).bind crsOfJ = some crs := by
  rw [json_loads_roundtrip]
  exact mapOpt_crOfJ crs

end GetContext
